import Mathlib

set_option maxRecDepth 100000

/-!
Verification development for the intent-routing and execution-planning core of
the olla-cli repository (src/olla_cli/routing/{intent,router,planner}.py and
src/olla_cli/mcp/{tools,registry}.py), as a shallow embedding in Lean.

Conventions of the embedding:
* Python strings are Lean `String` / `List Char`; confidences (Python floats)
  are `ℚ`; Python dicts are insertion-ordered association lists.
* Python's `re.search` is modelled by a small backtracking regular-expression
  engine (`reSearch` below) covering exactly the constructs appearing in the
  repository's patterns (literals, classes, `\w`, `\s`, `\b`, `.`, `*`, `+`,
  `?`, alternation, groups, `^`, `$`, negative lookahead), with Python's
  leftmost-match, greedy, first-alternative-wins semantics and `IGNORECASE`
  (all pattern uses in the modelled code are either IGNORECASE or applied to
  already lower-cased input).  The engine carries a generous step-count fuel
  to be total.
* `async` functions are modelled as pure functions; a Python exception is an
  `Except.error` carrying `str(e)`.
-/

namespace Olla

/-! ## Character and string utilities (ASCII model of Python `str` methods) -/

/-- Lower-casing a character, as Python `str.lower` on ASCII input. -/
def lc (c : Char) : Char := c.toLower

/-- Python regex `\w` (ASCII model): letters, digits, underscore. -/
def isWordChar (c : Char) : Bool := c.isAlphanum || c == '_'

/-- Python regex `\s` / `str.strip` whitespace (ASCII model). -/
def isSpaceChar (c : Char) : Bool :=
  c == ' ' || c == '\t' || c == '\n' || c == '\r' || c == '\x0b' || c == '\x0c'

/-- Python `str.strip()` composed with `str.lower()` on the character list. -/
def stripLower (s : List Char) : List Char :=
  (((s.dropWhile isSpaceChar).reverse.dropWhile isSpaceChar).reverse).map lc

/-- Python `needle in haystack` substring containment on character lists. -/
def containsSub (haystack needle : List Char) : Bool :=
  needle.isPrefixOf haystack ||
    match haystack with
    | [] => false
    | _ :: t => containsSub t needle

/-- Python `str.startswith`. -/
def pyStartsWith (s pre : List Char) : Bool := pre.isPrefixOf s

/-- Python `str.endswith`. -/
def pyEndsWith (s suf : List Char) : Bool := suf.reverse.isPrefixOf s.reverse

/-- Python slice `s[2:-1]` (used by the planner's `${...}` resolver, which
only applies it to strings of length at least 3). -/
def sliceTwoToLast (s : List Char) : List Char := (s.dropLast).drop 2

/-! ## A backtracking regex engine: shallow embedding of `re.search`
for the pattern constructs used by the repository. -/

/-- One item of a character class `[...]`. -/
inductive ClsItem where
  | ch (c : Char)
  | wordC
  | spaceC
deriving DecidableEq, Repr

/-- Does character `c` match a class item (case-insensitively, as under
`re.IGNORECASE`)? -/
def clsItemMatch (it : ClsItem) (c : Char) : Bool :=
  match it with
  | .ch d => lc c == lc d
  | .wordC => isWordChar c
  | .spaceC => isSpaceChar c

/-- Does `c` match class `[items]` (or `[^items]` when `neg`)? -/
def clsMatch (neg : Bool) (items : List ClsItem) (c : Char) : Bool :=
  let m := items.any (fun it => clsItemMatch it c)
  if neg then !m else m

/-- Regular-expression abstract syntax: the constructs used in the
repository's patterns. -/
inductive RE where
  | eps
  | lit (c : Char)
  | cls (neg : Bool) (items : List ClsItem)
  | dot
  | seq (a b : RE)
  | alt (a b : RE)
  | star (a : RE)
  | grp (n : Nat) (a : RE)
  | wb
  | bos
  | eos
  | nla (a : RE)
deriving Repr

/-- Group captures recorded during a match: (group index, start, end). -/
abbrev Caps := List (Nat × Nat × Nat)

/-- Is the character at position `i` (if any) a word character? -/
def isWordAt (s : List Char) (i : Nat) : Bool :=
  match s[i]? with
  | some c => isWordChar c
  | none => false

/-- Python `\b`: positions where exactly one neighbour is a word character. -/
def wordBoundary (s : List Char) (i : Nat) : Bool :=
  (if i == 0 then false else isWordAt s (i - 1)) != isWordAt s i

/-- Python `$` (no MULTILINE): end of string, or just before a final newline. -/
def atEos (s : List Char) (i : Nat) : Bool :=
  i == s.length || (i + 1 == s.length && s[i]? == some '\n')

/-- Backtracking matcher in continuation-passing style.  `k` receives the
position after the current node and the captures so far; alternatives are
tried left first and repetition is greedy, as in Python's `re`.  `fuel`
bounds the number of engine steps (made generous by `reSearch`). -/
def mtch (s : List Char) : Nat → RE → Nat → Caps → (Nat → Caps → Option Caps) → Option Caps
  | 0, _, _, _, _ => none
  | fuel + 1, r, i, caps, k =>
    match r with
    | .eps => k i caps
    | .lit c =>
      match s[i]? with
      | some d => if lc d == lc c then k (i + 1) caps else none
      | none => none
    | .cls neg items =>
      match s[i]? with
      | some d => if clsMatch neg items d then k (i + 1) caps else none
      | none => none
    | .dot =>
      match s[i]? with
      | some d => if d == '\n' then none else k (i + 1) caps
      | none => none
    | .seq a b => mtch s fuel a i caps (fun j caps' => mtch s fuel b j caps' k)
    | .alt a b =>
      match mtch s fuel a i caps k with
      | some res => some res
      | none => mtch s fuel b i caps k
    | .star a =>
      match mtch s fuel a i caps
          (fun j caps' => if j == i then none else mtch s fuel (.star a) j caps' k) with
      | some res => some res
      | none => k i caps
    | .grp n a => mtch s fuel a i caps (fun j caps' => k j ((n, i, j) :: caps'))
    | .wb => if wordBoundary s i then k i caps else none
    | .bos => if i == 0 then k i caps else none
    | .eos => if atEos s i then k i caps else none
    | .nla a =>
      match mtch s fuel a i caps (fun _ caps' => some caps') with
      | some _ => none
      | none => k i caps

/-- Structural size of a pattern, used only to pick a generous fuel. -/
def reSize : RE → Nat
  | .eps | .lit _ | .cls _ _ | .dot | .wb | .bos | .eos => 1
  | .seq a b | .alt a b => reSize a + reSize b + 1
  | .star a | .grp _ a | .nla a => reSize a + 1

/-- A step budget far beyond what backtracking can use on the modelled
patterns (which have no nested quantifiers, so backtracking is polynomial):
the engine answers exactly as `re` does within this budget. -/
def reFuel (s : List Char) (r : RE) : Nat :=
  (s.length + 2) * (s.length + 2) * (s.length + 2) * (reSize r + 2) * (reSize r + 2)

/-- Try a match anchored at each position `i`, `i+1`, ... in turn (Python's
`re.search` leftmost-match rule); returns the start position and captures. -/
def searchAux (s : List Char) (r : RE) : Nat → Nat → Option (Nat × Caps)
  | 0, _ => none
  | fuel + 1, i =>
    match mtch s (reFuel s r) r i [] (fun _ caps => some caps) with
    | some caps => some (i, caps)
    | none => if i < s.length then searchAux s r fuel (i + 1) else none

/-- Model of `re.search(pattern, s)`: leftmost match, with captures. -/
def reSearch (s : List Char) (r : RE) : Option (Nat × Caps) :=
  searchAux s r (s.length + 1) 0

/-- Boolean `re.search` test. -/
def reTest (r : RE) (s : List Char) : Bool := (reSearch s r).isSome

/-- The text of capture group `n` of a successful search (the most recent
assignment, as in Python). -/
def groupText (s : List Char) (res : Nat × Caps) (n : Nat) : Option (List Char) :=
  match res.2.find? (fun t => t.1 == n) with
  | some (_, st, en) => some ((s.drop st).take (en - st))
  | none => none

/-! ### Pattern-building helpers (literal words, alternations, `\s+`, ...) -/

/-- A literal string (each character matched case-insensitively). -/
def rstr (w : String) : RE := w.data.foldr (fun c r => .seq (.lit c) r) .eps

/-- Alternation of a list of patterns, left-to-right as written in source. -/
def ralt : List RE → RE
  | [] => .eps
  | [r] => r
  | r :: rest => .alt r (ralt rest)

/-- Alternation of literal words, e.g. `(explain|understand|describe)`. -/
def rwords (ws : List String) : RE := ralt (ws.map rstr)

/-- Pattern `.*` -/
def dots : RE := .star .dot

/-- Pattern `\s` -/
def sp : RE := .cls false [.spaceC]

/-- Pattern `\s+` -/
def sps : RE := .seq sp (.star sp)

/-- Pattern `\w` -/
def wch : RE := .cls false [.wordC]

/-- Pattern `x?` (greedy) -/
def ropt (a : RE) : RE := .alt a .eps

/-- Sequence of a list of patterns. -/
def rseq : List RE → RE
  | [] => .eps
  | [r] => r
  | r :: rest => .seq r (rseq rest)

/-! ## Python values and dicts

Parameter values in the modelled code are strings or opaque payloads; a dict
is an insertion-ordered association list with the update-in-place semantics
of Python dicts. -/

/-- A Python value as far as the routing core observes it: a string, or an
opaque payload of which only truthiness is observable. -/
inductive Value where
  | vstr (s : String)
  | vobj (truthy : Bool)
deriving DecidableEq, Repr

/-- Python truthiness of a `Value`. -/
def vtruthy : Value → Bool
  | .vstr s => !(s == "")
  | .vobj b => b

/-- Truthiness of `result.data` (where `None` is falsy). -/
def otruthy : Option Value → Bool
  | none => false
  | some v => vtruthy v

/-- An insertion-ordered string-keyed dict. -/
abbrev Params := List (String × Value)

/-- Caller-supplied context mapping. -/
abbrev Ctx := List (String × Value)

/-- Python `d.get(k)` / `d[k]`. -/
def pget (d : Params) (k : String) : Option Value :=
  (d.find? (fun kv => kv.1 == k)).map (fun kv => kv.2)

/-- Python `k in d`. -/
def hasKey (d : Params) (k : String) : Bool := d.any (fun kv => kv.1 == k)

/-- Python `d[k] = v`: update in place if present, else append. -/
def dinsert (d : Params) (k : String) (v : Value) : Params :=
  if hasKey d k then d.map (fun kv => if kv.1 == k then (k, v) else kv)
  else d ++ [(k, v)]

/-- Python `d.setdefault(k, v)`. -/
def dsetdefault (d : Params) (k : String) (v : Value) : Params :=
  if hasKey d k then d else d ++ [(k, v)]

/-- Python `d.get(k, default)`. -/
def pgetD (d : Params) (k : String) (v : Value) : Value := (pget d k).getD v

/-! ## Intent model (`routing/intent.py`) -/

/-- The `IntentType` enumeration. -/
inductive IntentType where
  | CODE_EXPLAIN | CODE_REVIEW | CODE_GENERATE | CODE_REFACTOR | CODE_DEBUG
  | FILE_READ | FILE_WRITE | FILE_LIST | WEB_FETCH | WEB_SEARCH | SHELL_EXECUTE
  | TASK_COMPLEX | CHAT_GENERAL | CONFIG_MANAGE | MODEL_MANAGE | UNKNOWN
deriving DecidableEq, Repr

/-- The string value of each `IntentType` member. -/
def IntentType.value : IntentType → String
  | .CODE_EXPLAIN => "code_explain"
  | .CODE_REVIEW => "code_review"
  | .CODE_GENERATE => "code_generate"
  | .CODE_REFACTOR => "code_refactor"
  | .CODE_DEBUG => "code_debug"
  | .FILE_READ => "file_read"
  | .FILE_WRITE => "file_write"
  | .FILE_LIST => "file_list"
  | .WEB_FETCH => "web_fetch"
  | .WEB_SEARCH => "web_search"
  | .SHELL_EXECUTE => "shell_execute"
  | .TASK_COMPLEX => "task_complex"
  | .CHAT_GENERAL => "chat_general"
  | .CONFIG_MANAGE => "config_manage"
  | .MODEL_MANAGE => "model_manage"
  | .UNKNOWN => "unknown"

/-- A classified user intent (dataclass `Intent`). -/
structure Intent where
  type : IntentType
  confidence : ℚ
  parameters : Params
  raw_input : String
  context_hints : Option Ctx
deriving DecidableEq, Repr

/-! ### The classifier's regex rule table (`_load_intent_patterns`)

Each Lean term is the hand-translation of the Python regex written in the
comment above it.  Plain parenthesised groups are transparent for matching,
so they are materialised (as `.grp`) only where `match.group(n)` is read. -/

/-- Word alternation in `\b( ... )\b` brackets. -/
def wbw (ws : List String) : RE := rseq [.wb, rwords ws, .wb]

/-- A word with an optional trailing `s?`. -/
def plural (w : String) : RE := .seq (rstr w) (ropt (.lit 's'))

/-- The lookahead `(?!.*\b(react|vue|angular|app)\b)` of the
CODE_GENERATE patterns. -/
def noFw : RE := .nla (rseq [dots, .wb, rwords ["react", "vue", "angular", "app"], .wb])

/-- Extension alternation `(py|js|ts|java|cpp|c|h|go|rs|php|rb|txt|md|json|yaml|yml|toml|html|css)`. -/
def extsFull : RE :=
  rwords ["py", "js", "ts", "java", "cpp", "c", "h", "go", "rs", "php", "rb",
          "txt", "md", "json", "yaml", "yml", "toml", "html", "css"]

/-- The ordered rule table of `_load_intent_patterns` (dict insertion order;
within a type, list order). -/
def intentPatterns : List (IntentType × List (RE × ℚ)) :=
  [ (.CODE_EXPLAIN,
      [ -- \b(explain|understand|what does|how does|describe)\b.*\b(code|function|class|method)\b
        (rseq [wbw ["explain", "understand", "what does", "how does", "describe"],
               dots, wbw ["code", "function", "class", "method"]], 0.3),
        -- \bexplain\b.*\.(py|js|java|cpp|c|go|rs|php)$
        (rseq [wbw ["explain"], dots, .lit '.',
               rwords ["py", "js", "java", "cpp", "c", "go", "rs", "php"], .eos], 0.4),
        -- ^explain\s+
        (rseq [.bos, rstr "explain", sps], 0.5) ]),
    (.CODE_REVIEW,
      [ -- \b(review|check|analyze|audit|inspect)\b.*\b(code|file)\b
        (rseq [wbw ["review", "check", "analyze", "audit", "inspect"],
               dots, wbw ["code", "file"]], 0.3),
        -- \b(bugs?|issues?|problems?|errors?)\b.*\b(find|check|look)\b
        (rseq [.wb, ralt [plural "bug", plural "issue", plural "problem", plural "error"], .wb,
               dots, wbw ["find", "check", "look"]], 0.2),
        -- ^review\s+
        (rseq [.bos, rstr "review", sps], 0.5) ]),
    (.CODE_GENERATE,
      [ -- \b(create|generate|write|build|make)\b.*\bcode\b(?!.*\b(react|vue|angular|app)\b)
        (rseq [wbw ["create", "generate", "write", "build", "make"],
               dots, wbw ["code"], noFw], 0.3),
        -- ^(create|generate|write|build)\s+.*\bcode\b(?!.*\b(react|vue|angular|app)\b)
        (rseq [.bos, rwords ["create", "generate", "write", "build"], sps,
               dots, wbw ["code"], noFw], 0.4),
        -- \b(implement|develop)\b.*\bcode\b(?!.*\b(react|vue|angular|app)\b)
        (rseq [wbw ["implement", "develop"], dots, wbw ["code"], noFw], 0.2) ]),
    (.CODE_REFACTOR,
      [ -- \b(refactor|improve|optimize|clean|restructure)\b
        (wbw ["refactor", "improve", "optimize", "clean", "restructure"], 0.4),
        -- \b(make.*better|improve.*code)\b
        (rseq [.wb, ralt [rseq [rstr "make", dots, rstr "better"],
                          rseq [rstr "improve", dots, rstr "code"]], .wb], 0.3),
        -- ^refactor\s+
        (rseq [.bos, rstr "refactor", sps], 0.5) ]),
    (.CODE_DEBUG,
      [ -- \b(debug|fix|solve|error|bug|issue|problem)\b
        (wbw ["debug", "fix", "solve", "error", "bug", "issue", "problem"], 0.3),
        -- \b(not working|broken|failing|crash)\b
        (wbw ["not working", "broken", "failing", "crash"], 0.2),
        -- ^debug\s+
        (rseq [.bos, rstr "debug", sps], 0.5) ]),
    (.FILE_READ,
      [ -- \b(read|show|display|open|cat|view)\b.*\bfile\b
        (rseq [wbw ["read", "show", "display", "open", "cat", "view"], dots, wbw ["file"]], 0.3),
        -- \bread\s+.*\.(py|js|txt|md|json|yaml|yml|toml)$
        (rseq [.wb, rstr "read", sps, dots, .lit '.',
               rwords ["py", "js", "txt", "md", "json", "yaml", "yml", "toml"], .eos], 0.4),
        -- ^(cat|head|tail|less|more)\s+
        (rseq [.bos, rwords ["cat", "head", "tail", "less", "more"], sps], 0.4) ]),
    (.FILE_WRITE,
      [ -- \b(write|save|create|put)\b.*\b(to|in|into)\b.*\bfile\b
        (rseq [wbw ["write", "save", "create", "put"], dots, wbw ["to", "in", "into"],
               dots, wbw ["file"]], 0.3),
        -- \b(save|write)\s+.*\s+(to|as)\s+.*\.(py|js|txt|md|json)
        (rseq [.wb, rwords ["save", "write"], sps, dots, sps, rwords ["to", "as"], sps,
               dots, .lit '.', rwords ["py", "js", "txt", "md", "json"]], 0.4),
        -- ^(echo|printf)\s+.*>\s*
        (rseq [.bos, rwords ["echo", "printf"], sps, dots, .lit '>', .star sp], 0.3),
        -- \bcreate\s+.*\bfile\s+(called|named)\b
        (rseq [.wb, rstr "create", sps, dots, .wb, rstr "file", sps,
               rwords ["called", "named"], .wb], 0.5),
        -- \bcreate\s+.*\.(py|js|txt|md|json|yaml|yml)\b
        (rseq [.wb, rstr "create", sps, dots, .lit '.',
               rwords ["py", "js", "txt", "md", "json", "yaml", "yml"], .wb], 0.4),
        -- \bmake\s+.*\bfile\b
        (rseq [.wb, rstr "make", sps, dots, wbw ["file"]], 0.3) ]),
    (.FILE_LIST,
      [ -- \b(list|show|find)\b.*\b(files?|directories?|folders?)\b
        (rseq [wbw ["list", "show", "find"], dots,
               .wb, ralt [plural "file", plural "directorie", plural "folder"], .wb], 0.3),
        -- ^(ls|dir|find)\s+
        (rseq [.bos, rwords ["ls", "dir", "find"], sps], 0.4),
        -- \bwhat.*files\b
        (rseq [.wb, rstr "what", dots, rstr "files", .wb], 0.2) ]),
    (.WEB_FETCH,
      [ -- \b(fetch|get|download|retrieve)\b.*\b(url|website|page|link)\b
        (rseq [wbw ["fetch", "get", "download", "retrieve"], dots,
               wbw ["url", "website", "page", "link"]], 0.3),
        -- \bfrom\s+https?://
        (rseq [.wb, rstr "from", sps, rstr "http", ropt (.lit 's'), rstr "://"], 0.4),
        -- ^(curl|wget)\s+
        (rseq [.bos, rwords ["curl", "wget"], sps], 0.4) ]),
    (.WEB_SEARCH,
      [ -- \b(search|find|look up|google)\b.*\b(web|internet|online)\b
        (rseq [wbw ["search", "find", "look up", "google"], dots,
               wbw ["web", "internet", "online"]], 0.3),
        -- \bsearch\s+for\b
        (rseq [.wb, rstr "search", sps, rstr "for", .wb], 0.3),
        -- ^search\s+
        (rseq [.bos, rstr "search", sps], 0.4) ]),
    (.SHELL_EXECUTE,
      [ -- ^(bash|sh|zsh|fish)\s+
        (rseq [.bos, rwords ["bash", "sh", "zsh", "fish"], sps], 0.5),
        -- \b(run|execute|exec)\b.*\b(command|script|shell)\b
        (rseq [wbw ["run", "execute", "exec"], dots, wbw ["command", "script", "shell"]], 0.3),
        -- ^(sudo|npm|pip|git|docker|kubectl)\s+
        (rseq [.bos, rwords ["sudo", "npm", "pip", "git", "docker", "kubectl"], sps], 0.4) ]),
    (.TASK_COMPLEX,
      [ -- \b(task|workflow|process|pipeline)\b
        (wbw ["task", "workflow", "process", "pipeline"], 0.3),
        -- \b(step by step|multi-step|complex)\b
        (wbw ["step by step", "multi-step", "complex"], 0.2),
        -- ^task\s+
        (rseq [.bos, rstr "task", sps], 0.5),
        -- \bcreate\s+.*\bfile\s+.*(with|containing).*\b(function|class|code)\b
        (rseq [.wb, rstr "create", sps, dots, .wb, rstr "file", sps, dots,
               rwords ["with", "containing"], dots, wbw ["function", "class", "code"]], 0.6),
        -- \bmake\s+.*\bfile\s+.*\bcontaining\b
        (rseq [.wb, rstr "make", sps, dots, .wb, rstr "file", sps, dots,
               wbw ["containing"]], 0.5),
        -- \b(generate|create)\s+.*\band\s+(save|write|create)
        (rseq [.wb, rwords ["generate", "create"], sps, dots, .wb, rstr "and", sps,
               rwords ["save", "write", "create"]], 0.4),
        -- \b(create|generate|build|make)\s+.*\.(py|...|css)\b
        (rseq [.wb, rwords ["create", "generate", "build", "make"], sps, dots, .lit '.',
               extsFull, .wb], 0.7),
        -- \bcreate\s+.*\bfile\s+(called|named)\s+.*\.(py|js|ts|java|cpp)\b
        (rseq [.wb, rstr "create", sps, dots, .wb, rstr "file", sps,
               rwords ["called", "named"], sps, dots, .lit '.',
               rwords ["py", "js", "ts", "java", "cpp"], .wb], 0.8),
        -- \b(write|create|generate)\s+.*\bcode\s+.*\b(to|in|into)\s+.*\.(py|js|ts|java)\b
        (rseq [.wb, rwords ["write", "create", "generate"], sps, dots, .wb, rstr "code", sps,
               dots, .wb, rwords ["to", "in", "into"], sps, dots, .lit '.',
               rwords ["py", "js", "ts", "java"], .wb], 0.7),
        -- \b(implement|develop|build)\s+.*\band\s+(save|write|create|put).*\bfile\b
        (rseq [.wb, rwords ["implement", "develop", "build"], sps, dots, .wb, rstr "and", sps,
               rwords ["save", "write", "create", "put"], dots, wbw ["file"]], 0.6),
        -- \bcreate\s+.*\b(function|class|module|script|program)\b
        (rseq [.wb, rstr "create", sps, dots,
               wbw ["function", "class", "module", "script", "program"]], 0.7),
        -- \bcreate\s+.*\b(app|application)\b
        (rseq [.wb, rstr "create", sps, dots, wbw ["app", "application"]], 0.9),
        -- \bcreate\s+.*\b(react|vue|angular|next|nodejs|express)\b
        (rseq [.wb, rstr "create", sps, dots,
               wbw ["react", "vue", "angular", "next", "nodejs", "express"]], 1.0),
        -- \b(todo|task)\s+.*\b(react|app)\b
        (rseq [.wb, rwords ["todo", "task"], sps, dots, wbw ["react", "app"]], 1.0) ]),
    (.CONFIG_MANAGE,
      [ -- \b(config|configuration|settings?|preferences?)\b
        (rseq [.wb, ralt [rstr "config", rstr "configuration",
                          plural "setting", plural "preference"], .wb], 0.3),
        -- ^config\s+
        (rseq [.bos, rstr "config", sps], 0.5),
        -- \b(set|get|show|reset)\b.*\b(config|setting)\b
        (rseq [wbw ["set", "get", "show", "reset"], dots, wbw ["config", "setting"]], 0.3) ]),
    (.MODEL_MANAGE,
      [ -- \b(model|models)\b.*\b(list|info|pull|download)\b
        (rseq [wbw ["model", "models"], dots, wbw ["list", "info", "pull", "download"]], 0.4),
        -- ^models?\s+
        (rseq [.bos, rstr "model", ropt (.lit 's'), sps], 0.5),
        -- \bollama\s+(pull|list|info)\b
        (rseq [.wb, rstr "ollama", sps, rwords ["pull", "list", "info"], .wb], 0.4) ]) ]

/-- Keyword-category table of `_load_context_keywords`. -/
def contextKeywords : List (String × List String) :=
  [ ("file_operations", ["file", "directory", "folder", "path", ".py", ".js", ".txt"]),
    ("code_operations", ["code", "function", "class", "method", "variable", "algorithm"]),
    ("web_operations", ["url", "http", "https", "website", "api", "endpoint"]),
    ("development", ["debug", "test", "build", "deploy", "git", "npm", "pip"]) ]

/-- Python truthiness of an optional dict (`if context:`). -/
def ctxTruthy : Option Ctx → Bool
  | none => false
  | some l => !l.isEmpty

/-- One iteration of the keyword-category loop of `_calculate_confidence`:
count keyword substring hits of a category and add `0.1` per hit when the
category applies to the intent type's name prefix. -/
def confKeywordStep (userInput : List Char) (intentType : IntentType)
    (b : ℚ) (cat : String × List String) : ℚ :=
  let keywordMatches : Nat := (cat.2.filter (fun kw => containsSub userInput kw.data)).length
  if keywordMatches > 0 then
    if cat.1 == "code_operations" && pyStartsWith intentType.value.data "code_".data then
      b + 0.1 * (keywordMatches : ℚ)
    else if cat.1 == "file_operations" && pyStartsWith intentType.value.data "file_".data then
      b + 0.1 * (keywordMatches : ℚ)
    else if cat.1 == "web_operations" && pyStartsWith intentType.value.data "web_".data then
      b + 0.1 * (keywordMatches : ℚ)
    else b
  else b

/-- Model of `IntentClassifier._calculate_confidence`. -/
def calculateConfidence (userInput : List Char) (intentType : IntentType)
    (context : Option Ctx) : ℚ :=
  let base : ℚ := 0.5
  let base :=
    if ctxTruthy context then
      let ctx := context.getD []
      let base :=
        if hasKey ctx "file_path" &&
            (intentType == .FILE_READ || intentType == .FILE_WRITE ||
             intentType == .CODE_EXPLAIN) then base + 0.2 else base
      let base :=
        if hasKey ctx "code" &&
            (intentType == .CODE_EXPLAIN || intentType == .CODE_REVIEW ||
             intentType == .CODE_REFACTOR) then base + 0.2 else base
      base
    else base
  let base := contextKeywords.foldl (confKeywordStep userInput intentType) base
  min 1 base

/-- Regex `([^\s]+\.\w+)(?:\s|$)` for `file_path` extraction. -/
def filePathRE : RE :=
  rseq [.grp 1 (rseq [.cls true [.spaceC], .star (.cls true [.spaceC]), .lit '.',
                      wch, .star wch]),
        ralt [sp, .eos]]

/-- Regex `https?://[^\s]+` for URL extraction (whole match is read, so the
whole pattern is group 0). -/
def urlRE : RE :=
  .grp 0 (rseq [rstr "http", ropt (.lit 's'), rstr "://",
                .cls true [.spaceC], .star (.cls true [.spaceC])])

/-- The `lang_patterns` table (dict insertion order; first match wins). -/
def langPatterns : List (RE × String) :=
  [ (wbw ["python"], "python"),
    (.alt (wbw ["javascript"]) (wbw ["js"]), "javascript"),
    (wbw ["java"], "java"),
    (.alt (rseq [.wb, rstr "c++", .wb]) (wbw ["cpp"]), "cpp"),
    (wbw ["react"], "javascript"),
    (.alt (wbw ["flask"]) (wbw ["django"]), "python") ]

/-- The `focus_keywords` table of CODE_REVIEW parameter extraction. -/
def focusKeywords : List (String × RE) :=
  [ ("security", wbw ["security", "secure", "vulnerability", "vulnerabilities", "safe", "unsafe"]),
    ("performance", wbw ["performance", "speed", "fast", "slow", "optimize", "optimization"]),
    ("style", wbw ["style", "format", "formatting", "convention", "clean"]),
    ("bugs", wbw ["bug", "bugs", "error", "errors", "issue", "issues", "problem", "problems"]) ]

/-- Model of `IntentClassifier._extract_parameters`. -/
def extractParameters (userInput : List Char) (intentType : IntentType) : Params :=
  let parameters : Params := []
  let parameters :=
    match reSearch userInput filePathRE with
    | some res =>
      match groupText userInput res 1 with
      | some t => dinsert parameters "file_path" (.vstr (String.mk t))
      | none => parameters
    | none => parameters
  let parameters :=
    match reSearch userInput urlRE with
    | some res =>
      match groupText userInput res 0 with
      | some t => dinsert parameters "url" (.vstr (String.mk t))
      | none => parameters
    | none => parameters
  let parameters :=
    match langPatterns.find? (fun p => reTest p.1 userInput) with
    | some (_, language) => dinsert parameters "language" (.vstr language)
    | none => parameters
  let parameters :=
    if intentType == .CODE_GENERATE then
      if containsSub userInput "function".data then
        dinsert parameters "template" (.vstr "function")
      else if containsSub userInput "class".data then
        dinsert parameters "template" (.vstr "class")
      else if containsSub userInput "app".data || containsSub userInput "application".data then
        dinsert parameters "template" (.vstr "app")
      else parameters
    else if intentType == .CODE_REVIEW then
      match focusKeywords.find? (fun p => reTest p.2 userInput) with
      | some (focus, _) => dinsert parameters "focus" (.vstr focus)
      | none => parameters
    else parameters
  parameters

/-- The `keyword_intents` table of `_classify_by_keywords`. -/
def keywordIntents : List (IntentType × List String) :=
  [ (.CHAT_GENERAL, ["hello", "hi", "help", "what", "how", "why", "chat"]),
    (.CODE_EXPLAIN, ["explain", "describe", "what does"]),
    (.CODE_GENERATE, ["create", "generate", "make", "build"]),
    (.FILE_READ, ["read", "show", "display", "cat"]),
    (.CONFIG_MANAGE, ["config", "settings", "configure"]) ]

/-- Model of `IntentClassifier._classify_by_keywords` (fallback when no
pattern matched; `userInput` is already normalized). -/
def classifyByKeywords (userInput : List Char) (context : Option Ctx) : Intent :=
  let best := keywordIntents.foldl (fun best cat =>
    let score : Nat := (cat.2.filter (fun kw => containsSub userInput kw.data)).length
    if score > best.2 then (cat.1, score) else best) (IntentType.UNKNOWN, 0)
  let confidence : ℚ := if best.2 > 0 then min 0.6 ((best.2 : ℚ) * 0.2) else 0.1
  { type := best.1, confidence := confidence, parameters := [],
    raw_input := String.mk userInput, context_hints := context }

/-- The pattern-matching pass of `classify`: first intent type in table
order whose first matching pattern fires wins. -/
def classifyGo (rules : List (IntentType × List (RE × ℚ))) (norm : List Char)
    (context : Option Ctx) : Option Intent :=
  match rules with
  | [] => none
  | (intentType, pats) :: rest =>
    match pats.find? (fun p => reTest p.1 norm) with
    | some p =>
      some { type := intentType,
             confidence := min 1 (calculateConfidence norm intentType context + p.2),
             parameters := extractParameters norm intentType,
             raw_input := String.mk norm,
             context_hints := context }
    | none => classifyGo rest norm context

/-- Model of `IntentClassifier.classify`. -/
def classify (user_input : String) (context : Option Ctx) : Intent :=
  let norm := stripLower user_input.data
  match classifyGo intentPatterns norm context with
  | some intent => intent
  | none => classifyByKeywords norm context

/-! ## Filename patterns of the planner and router
(`_contains_filename`, `_extract_filename`) -/

/-- Character class `[\w\-_.]`. -/
def fncls : RE := .cls false [.wordC, .ch '-', .ch '_', .ch '.']

/-- The `filename_patterns` list of `_contains_filename` (planner and router
use the identical list). -/
def filenamePatterns : List RE :=
  [ -- [\w\-_.]+\.(py|...|css)
    rseq [fncls, .star fncls, .lit '.', extsFull],
    -- called\s+[\w\-_.]+\.(py|...|css)
    rseq [rstr "called", sps, fncls, .star fncls, .lit '.', extsFull],
    -- named\s+[\w\-_.]+\.(py|...|css)
    rseq [rstr "named", sps, fncls, .star fncls, .lit '.', extsFull],
    -- file\s+(called|named)\s+[\w\-_.]+\.
    rseq [rstr "file", sps, rwords ["called", "named"], sps, fncls, .star fncls, .lit '.'] ]

/-- Model of `_contains_filename` (same code in `ExecutionPlanner` and
`ToolRouter`). -/
def containsFilename (text : List Char) : Bool :=
  filenamePatterns.any (fun p => reTest p text)

/-- The two patterns of `_extract_filename`, whose `group(1)` is read. -/
def extractFilenamePatterns : List RE :=
  [ -- ([\w\-_.]+\.(py|...|css))
    .grp 1 (rseq [fncls, .star fncls, .lit '.', .grp 2 extsFull]),
    -- (?:called|named)\s+([\w\-_.]+\.(py|...|css))
    rseq [rwords ["called", "named"], sps,
          .grp 1 (rseq [fncls, .star fncls, .lit '.', .grp 2 extsFull])] ]

/-- Model of `ExecutionPlanner._extract_filename`. -/
def extractFilename (text : List Char) : Option String :=
  (extractFilenamePatterns.findSome? (fun p =>
    match reSearch text p with
    | some res => (groupText text res 1).map String.mk
    | none => none))

/-! ## Tool capability model (`mcp/tools.py`) -/

/-- The `ToolType` enumeration. -/
inductive ToolType where
  | FILE_SYSTEM | CODE_ANALYSIS | WEB | SHELL | GENERATION | CONTEXT | TASK
deriving DecidableEq, Repr

/-- The string value of each `ToolType` member. -/
def ToolType.value : ToolType → String
  | .FILE_SYSTEM => "filesystem"
  | .CODE_ANALYSIS => "code_analysis"
  | .WEB => "web"
  | .SHELL => "shell"
  | .GENERATION => "generation"
  | .CONTEXT => "context"
  | .TASK => "task"

/-- Dataclass `ToolCapability`. -/
structure ToolCapability where
  name : String
  description : String
  parameters : List (String × String)
  required_params : List String
  tool_type : ToolType
  confidence_threshold : ℚ := 0.7
deriving DecidableEq, Repr

/-- Dataclass `ToolResult`. -/
structure ToolResult where
  success : Bool
  data : Option Value
  error : Option String := none
  metadata : Option Params := none
deriving DecidableEq, Repr

/-- The fixed `intent_capability_mapping` table of `matches_intent`. -/
def intentCapabilityMapping : List (String × List String) :=
  [ ("code_explain", ["explain_code"]),
    ("code_review", ["review_code"]),
    ("code_generate", ["generate_code"]),
    ("code_refactor", ["refactor_code"]),
    ("code_debug", ["debug_code"]),
    ("file_read", ["read_file"]),
    ("file_write", ["write_file"]),
    ("file_list", ["list_files"]),
    ("web_fetch", ["fetch_url"]),
    ("web_search", ["search_web"]) ]

/-- Model of `ToolCapability.matches_intent`. -/
def ToolCapability.matchesIntent (cap : ToolCapability) (intent : String)
    (confidence : ℚ) : Bool :=
  if confidence < cap.confidence_threshold then false
  else
    let matchingCapabilities :=
      (((intentCapabilityMapping.find? (fun kv => kv.1 == intent)).map (fun kv => kv.2)).getD [])
    matchingCapabilities.contains cap.name

/-- A tool, as the routing core sees it (`ToolInterface`): a name, a
`get_capabilities` method and an `execute` method, either of which may raise
(modelled by `Except`, carrying `str(e)`). -/
structure Tool where
  name : String
  get_capabilities : Except String (List ToolCapability)
  execute : String → Params → Except String ToolResult

/-- Model of `ToolInterface.can_handle`: the tool's first capability matching
the intent (propagating an exception of `get_capabilities`). -/
def canHandle (tool : Tool) (intent : String) (confidence : ℚ) :
    Except String (Option ToolCapability) := do
  let caps ← tool.get_capabilities
  pure (caps.find? (fun c => c.matchesIntent intent confidence))

/-- Model of `ToolInterface.validate_params` (the base implementation, which
no tool in the repository overrides): all required parameters present. -/
def validateParams (capability : ToolCapability) (params : Params) : Bool :=
  capability.required_params.all (fun p => hasKey params p)

/-! ## Tool registry (`mcp/registry.py`)

The registry's `self.tools` dict is keyed by unique tool name; its values in
insertion order are modelled as a `List Tool`. -/

/-- The match-collection loop of `find_tools_for_intent`: one `(tool,
capability)` pair per tool whose `can_handle` returns a capability, in
registry order. -/
def collectMatches (tools : List Tool) (intent : String) (confidence : ℚ) :
    Except String (List (Tool × ToolCapability)) :=
  match tools with
  | [] => pure []
  | tool :: rest => do
    let c? ← canHandle tool intent confidence
    let restMatches ← collectMatches rest intent confidence
    match c? with
    | some capability => pure ((tool, capability) :: restMatches)
    | none => pure restMatches

/-- Insert into a list sorted descending by `confidence_threshold`, keeping
earlier elements first among equals (stability of Python `list.sort`). -/
def insertDesc (x : Tool × ToolCapability) :
    List (Tool × ToolCapability) → List (Tool × ToolCapability)
  | [] => [x]
  | y :: ys =>
    if x.2.confidence_threshold < y.2.confidence_threshold then y :: insertDesc x ys
    else x :: y :: ys

/-- Stable sort descending by the capability's `confidence_threshold`
(`matches.sort(key=lambda x: x[1].confidence_threshold, reverse=True)`). -/
def sortByThresholdDesc : List (Tool × ToolCapability) → List (Tool × ToolCapability)
  | [] => []
  | x :: xs => insertDesc x (sortByThresholdDesc xs)

/-- Model of `ToolRegistry.find_tools_for_intent`. -/
def findToolsForIntent (tools : List Tool) (intent : String) (confidence : ℚ) :
    Except String (List (Tool × ToolCapability)) := do
  let matchList ← collectMatches tools intent confidence
  pure (sortByThresholdDesc matchList)

/-! ## Execution planner (`routing/planner.py`) -/

/-- The `StepStatus` enumeration. -/
inductive StepStatus where
  | PENDING | RUNNING | COMPLETED | FAILED | SKIPPED
deriving DecidableEq, Repr

/-- Dataclass `ExecutionStep`.  The field `execCount` is ghost
instrumentation, not in the source dataclass: it counts how many times
`execute` has run on this step, so that execution-count properties can be
stated; it influences nothing. -/
structure ExecutionStep where
  id : String
  tool : Tool
  capability : ToolCapability
  parameters : Params
  status : StepStatus := .PENDING
  result : Option ToolResult := none
  error : Option String := none
  dependencies : List String := []
  retry_count : Nat := 0
  max_retries : Nat := 3
  execCount : Nat := 0

/-- Model of `ExecutionStep._resolve_parameters`: a string value of the form
`${X}` is replaced by `context[X]` when present, else kept. -/
def resolveParameters (params : Params) (context : Params) : Params :=
  params.map (fun kv =>
    match kv.2 with
    | .vstr s =>
      if pyStartsWith s.data "$\x7b".data && pyEndsWith s.data "\x7d".data then
        let varName := String.mk (sliceTwoToLast s.data)
        (kv.1, pgetD context varName kv.2)
      else kv
    | _ => kv)

/-- Model of `ExecutionStep.execute`: resolve parameters, validate, run the
tool; any exception (including the `ValueError` for invalid parameters) is
caught and becomes a failed `ToolResult`. -/
def stepExecute (step : ExecutionStep) (context : Params) : ExecutionStep × ToolResult :=
  let step := { step with status := .RUNNING, execCount := step.execCount + 1 }
  let resolvedParams := resolveParameters step.parameters context
  let body : Except String ToolResult := do
    if !(validateParams step.capability resolvedParams) then
      throw ("Invalid parameters for " ++ step.capability.name)
    step.tool.execute step.capability.name resolvedParams
  match body with
  | .ok result =>
    if result.success then
      ({ step with status := .COMPLETED, result := some result }, result)
    else
      ({ step with status := .FAILED, result := some result, error := result.error }, result)
  | .error e =>
    let result : ToolResult := { success := false, data := none, error := some e }
    ({ step with status := .FAILED, result := some result, error := some e }, result)

/-- Model of `ExecutionStep.can_retry`. -/
def canRetry (s : ExecutionStep) : Bool :=
  s.status == .FAILED && s.retry_count < s.max_retries

/-- Dataclass `ExecutionPlan`. -/
structure ExecutionPlan where
  id : String
  intent : Intent
  steps : List ExecutionStep := []
  context : Params := []
  parallel_execution : Bool := false

/-- Ids of completed steps (`completed_step_ids` in `get_next_steps`). -/
def completedIds (steps : List ExecutionStep) : List String :=
  (steps.filter (fun s => s.status == .COMPLETED)).map (fun s => s.id)

/-- Is a step ready: pending with all dependencies completed. -/
def isReady (steps : List ExecutionStep) (s : ExecutionStep) : Bool :=
  s.status == .PENDING && s.dependencies.all (fun d => (completedIds steps).contains d)

/-- Model of `ExecutionPlan.get_next_steps`, by position in `steps` (the
Python list holds mutable objects; positions model object identity). -/
def readyIndices (steps : List ExecutionStep) : List Nat :=
  (List.range steps.length).filter (fun i =>
    match steps[i]? with
    | some s => isReady steps s
    | none => false)

/-- Model of `ExecutionPlan.is_complete`. -/
def planIsComplete (steps : List ExecutionStep) : Bool :=
  steps.all (fun s => s.status == .COMPLETED || s.status == .SKIPPED)

/-- Model of `ExecutionPlan.has_failures`. -/
def planHasFailures (steps : List ExecutionStep) : Bool :=
  steps.any (fun s => s.status == .FAILED)

/-- Python `f"{plan_id}_{n:03d}"`. -/
def stepId (planId : String) (n : Nat) : String :=
  planId ++ "_" ++
    (if n < 10 then "00" ++ toString n
     else if n < 100 then "0" ++ toString n
     else toString n)

/-- Model of `ExecutionPlanner._prepare_parameters`.  (The source guard
`'raw_input' in intent.__dict__` is always true for the dataclass and is
dropped.) -/
def prepareParameters (intent : Intent) (capability : ToolCapability) : Params :=
  let params : Params := capability.required_params.foldl (fun params paramName =>
    match pget intent.parameters paramName with
    | some v => dinsert params paramName v
    | none => params) []
  if capability.name == "explain_code" then
    let params := dsetdefault params "detail_level" (.vstr "normal")
    if !(hasKey params "code") then dinsert params "code" (.vstr intent.raw_input) else params
  else if capability.name == "review_code" then
    let params := dsetdefault params "focus" (pgetD intent.parameters "focus" (.vstr "all"))
    if !(hasKey params "code") then dinsert params "code" (.vstr intent.raw_input) else params
  else if capability.name == "generate_code" then
    let params := dsetdefault params "language" (pgetD intent.parameters "language" (.vstr "python"))
    if !(hasKey params "description") then dinsert params "description" (.vstr intent.raw_input)
    else params
  else params

/-- The `intent_tool_mapping` table of `_filter_relevant_tools`. -/
def intentToolMapping : List (IntentType × List String) :=
  [ (.CODE_EXPLAIN, ["code_analysis"]),
    (.CODE_REVIEW, ["code_analysis"]),
    (.CODE_GENERATE, ["code_analysis"]),
    (.CODE_REFACTOR, ["code_analysis"]),
    (.CODE_DEBUG, ["code_analysis"]),
    (.FILE_READ, ["filesystem"]),
    (.FILE_WRITE, ["filesystem"]),
    (.FILE_LIST, ["filesystem"]),
    (.WEB_SEARCH, ["web"]),
    (.WEB_FETCH, ["web"]),
    (.TASK_COMPLEX, ["filesystem", "code_analysis", "web"]) ]

/-- Model of `ExecutionPlanner._filter_relevant_tools`. -/
def filterRelevantTools (intent : Intent) (availableTools : List (Tool × ToolCapability)) :
    List (Tool × ToolCapability) :=
  let relevantToolTypes :=
    ((intentToolMapping.find? (fun kv => kv.1 == intent.type)).map (fun kv => kv.2)).getD
      ["code_analysis"]
  let filteredTools := availableTools.filter (fun tc => relevantToolTypes.contains tc.2.tool_type.value)
  if filteredTools.isEmpty then
    match availableTools with
    | [] => filteredTools
    | a :: _ => [a]
  else filteredTools

/-- Model of `ExecutionPlanner._create_complex_plan`. -/
def createComplexPlan (intent : Intent) (availableTools : List (Tool × ToolCapability))
    (planId : String) : ExecutionPlan :=
  let plan : ExecutionPlan := { id := planId, intent := intent }
  let fileTools := availableTools.filter (fun tc => tc.2.tool_type.value == "filesystem")
  let codeTools := availableTools.filter (fun tc => tc.2.tool_type.value == "code_analysis")
  let stepCounter := 1
  let (plan, stepCounter) :=
    match fileTools, hasKey intent.parameters "file_path" with
    | (tool, capability) :: _, true =>
      let readStep : ExecutionStep :=
        { id := stepId planId stepCounter, tool := tool, capability := capability,
          parameters := [("file_path", (pget intent.parameters "file_path").getD (.vstr ""))] }
      ({ plan with steps := plan.steps ++ [readStep] }, stepCounter + 1)
    | _, _ => (plan, stepCounter)
  match codeTools with
  | (tool, capability) :: _ =>
    let analysisStep : ExecutionStep :=
      { id := stepId planId stepCounter, tool := tool, capability := capability,
        parameters := prepareParameters intent capability,
        dependencies := if stepCounter > 1 then [stepId planId 1] else [] }
    { plan with steps := plan.steps ++ [analysisStep] }
  | [] => plan

/-- Model of `ExecutionPlanner._create_file_based_plan`. -/
def createFileBasedPlan (intent : Intent) (availableTools : List (Tool × ToolCapability))
    (planId : String) : ExecutionPlan :=
  let plan : ExecutionPlan := { id := planId, intent := intent }
  let fileTools := availableTools.filter (fun tc =>
    tc.2.tool_type.value == "filesystem" && tc.2.name == "read_file")
  let analysisTools := availableTools.filter (fun tc => tc.2.tool_type.value == "code_analysis")
  match fileTools, hasKey intent.parameters "file_path" with
  | (fileTool, fileCapability) :: _, true =>
    let readStep : ExecutionStep :=
      { id := stepId planId 1, tool := fileTool, capability := fileCapability,
        parameters := [("file_path", (pget intent.parameters "file_path").getD (.vstr ""))] }
    let plan := { plan with steps := plan.steps ++ [readStep] }
    match analysisTools with
    | (analysisTool, analysisCapability) :: _ =>
      let analysisStep : ExecutionStep :=
        { id := stepId planId 2, tool := analysisTool, capability := analysisCapability,
          parameters := prepareParameters intent analysisCapability,
          dependencies := [stepId planId 1] }
      { plan with steps := plan.steps ++ [analysisStep] }
    | [] => plan
  | _, _ => plan

/-- Model of `ExecutionPlanner._create_code_to_file_plan`. -/
def createCodeToFilePlan (intent : Intent) (availableTools : List (Tool × ToolCapability))
    (planId : String) : ExecutionPlan :=
  let plan : ExecutionPlan := { id := planId, intent := intent }
  let codeTools := availableTools.filter (fun tc =>
    tc.2.tool_type.value == "code_analysis" && tc.2.name == "generate_code")
  let fileTools := availableTools.filter (fun tc =>
    tc.2.tool_type.value == "filesystem" && tc.2.name == "write_file")
  let filename := extractFilename intent.raw_input.data
  let plan :=
    match codeTools with
    | (tool, capability) :: _ =>
      { plan with steps := plan.steps ++
          [{ id := stepId planId 1, tool := tool, capability := capability,
             parameters := prepareParameters intent capability }] }
    | [] => plan
  match fileTools, filename with
  | (tool, capability) :: _, some fname =>
    { plan with steps := plan.steps ++
        [{ id := stepId planId 2, tool := tool, capability := capability,
           parameters := [("file_path", .vstr fname),
                          ("content", .vstr ("$\x7bstep_" ++ stepId planId 1 ++ "_result\x7d"))],
           dependencies := [stepId planId 1] }] }
  | _, _ => plan

/-- The `for i, (tool, capability) in enumerate(relevant_tools)` loop of the
default branch of `create_plan`: one step per pair, ids numbered from
`i + 1`. -/
def buildDefaultSteps (planId : String) (intent : Intent) :
    Nat → List (Tool × ToolCapability) → List ExecutionStep
  | _, [] => []
  | i, tc :: rest =>
    { id := stepId planId (i + 1), tool := tc.1, capability := tc.2,
      parameters := prepareParameters intent tc.2 } :: buildDefaultSteps planId intent (i + 1) rest

/-- Model of `ExecutionPlanner.create_plan`.  The `plan_id` (a uuid4 in the
source) is an argument; the planner's `active_plans` table, which is written
and then deleted around execution with no observable effect on results, is
not modelled. -/
def createPlan (planId : String) (intent : Intent)
    (availableTools : List (Tool × ToolCapability)) : ExecutionPlan :=
  let plan : ExecutionPlan := { id := planId, intent := intent }
  if availableTools.length == 1 then
    match availableTools with
    | (tool, capability) :: _ =>
      { plan with steps := [{ id := stepId planId 1, tool := tool, capability := capability,
                              parameters := prepareParameters intent capability }] }
    | [] => plan
  else if intent.type == .TASK_COMPLEX then
    createComplexPlan intent availableTools planId
  else if (intent.type == .CODE_EXPLAIN || intent.type == .CODE_REVIEW) &&
      hasKey intent.parameters "file_path" then
    createFileBasedPlan intent availableTools planId
  else if intent.type == .CODE_GENERATE && containsFilename intent.raw_input.data then
    createCodeToFilePlan intent availableTools planId
  else
    let relevantTools := filterRelevantTools intent availableTools
    { plan with steps := buildDefaultSteps planId intent 0 relevantTools,
                parallel_execution := relevantTools.length > 1 }

/-- The `for step in next_steps` body of sequential execution: execute the
chosen positions in order, threading the evolving step list, context and
result list; a successful result with truthy data is written into the
context under `step_<id>_result`. -/
def execSteps (idxs : List Nat) (steps : List ExecutionStep) (context : Params)
    (results : List ToolResult) : List ExecutionStep × Params × List ToolResult :=
  match idxs with
  | [] => (steps, context, results)
  | i :: rest =>
    match steps[i]? with
    | none => execSteps rest steps context results
    | some st =>
      let (st', result) := stepExecute st context
      let steps' := steps.set i st'
      let context' :=
        if result.success && otruthy result.data then
          dinsert context ("step_" ++ st.id ++ "_result") (result.data.getD (.vstr ""))
        else context
      execSteps rest steps' context' (results ++ [result])

/-- The retry reset applied to each retryable step (`step.retry_count += 1;
step.status = StepStatus.PENDING`). -/
def retryResetStep (s : ExecutionStep) : ExecutionStep :=
  if canRetry s then { s with retry_count := s.retry_count + 1, status := .PENDING } else s

/-- The sequential `while not plan.is_complete()` loop of `execute_plan`,
with a step-count fuel (shown sufficient below). -/
def execLoop : Nat → ExecutionPlan → List ToolResult → Option (List ToolResult × ExecutionPlan)
  | 0, _, _ => none
  | fuel + 1, plan, results =>
    if planIsComplete plan.steps then some (results, plan)
    else
      let ready := readyIndices plan.steps
      if ready.isEmpty then
        if planHasFailures plan.steps then
          if (plan.steps.filter canRetry).isEmpty then some (results, plan)
          else
            execLoop fuel { plan with steps := plan.steps.map retryResetStep } results
        else some (results, plan)
      else
        let (steps', context', results') := execSteps ready plan.steps plan.context results
        execLoop fuel { plan with steps := steps', context := context' } results'

/-- Termination measure for the sequential loop: every continuing iteration
strictly decreases it. -/
def stepWeight (s : ExecutionStep) : Nat :=
  2 * (s.max_retries + 1 - s.retry_count) + (if s.status = .PENDING then 1 else 0)

/-- Sum of step weights. -/
def planMeasure (steps : List ExecutionStep) : Nat := (steps.map stepWeight).sum

/-- Model of `ExecutionPlanner.execute_plan`.  In parallel mode all steps
run against an empty context (`step.execute()` is called with no context)
and results are collected in step order; `asyncio.gather`'s
exception-to-result branch is unreachable because `ExecutionStep.execute`
catches everything itself.  In sequential mode the loop runs with fuel
`planMeasure + 1`, which `execLoop_total` below proves sufficient, so the
`getD` default is never used. -/
def executePlan (plan : ExecutionPlan) : List ToolResult × ExecutionPlan :=
  if plan.parallel_execution then
    let executed := plan.steps.map (fun s => stepExecute s [])
    (executed.map (fun p => p.2), { plan with steps := executed.map (fun p => p.1) })
  else
    (execLoop (planMeasure plan.steps + 1) plan []).getD ([], plan)

/-! ## Tool router (`routing/router.py`) -/

/-- Per-intent counters of `routing_stats['intent_accuracy']`. -/
structure IntentStats where
  attempts : Nat
  successes : Nat
deriving DecidableEq, Repr

/-- The router's `routing_stats`. -/
structure RoutingStats where
  total_requests : Nat := 0
  successful_routes : Nat := 0
  failed_routes : Nat := 0
  intent_accuracy : List (String × IntentStats) := []
deriving DecidableEq, Repr

/-- Outcome of the `try` block of `route_request` (before the catch-all). -/
inductive RouteOutcome where
  | noTools
  | executed (results : List ToolResult) (intentKey : String)

/-- Membership test `(tool, capability) in available_tools`; Python compares
tool objects by identity, and registry tools are keyed by unique name, so
name equality models identity (capabilities are dataclasses with structural
equality). -/
def pairMem (available : List (Tool × ToolCapability)) (p : Tool × ToolCapability) : Bool :=
  available.any (fun q => q.1.name == p.1.name && q.2 == p.2)

/-- The `try` block of `ToolRouter.route_request`: classify, look up
candidates (with the CODE_GENERATE `file_write` augmentation), then either
report no tools or build and execute the plan. -/
def routeRequestTry (tools : List Tool) (userInput : String) (context : Option Ctx)
    (planId : String) : Except String RouteOutcome := do
  let intent := classify userInput context
  let availableTools ← findToolsForIntent tools intent.type.value intent.confidence
  let availableTools ←
    if intent.type.value == "code_generate" && containsFilename userInput.data then do
      let fileTools ← findToolsForIntent tools "file_write" intent.confidence
      pure (fileTools.foldl (fun avail p => if !(pairMem avail p) then avail ++ [p] else avail)
        availableTools)
    else pure availableTools
  if availableTools.isEmpty then
    pure .noTools
  else
    let plan := createPlan planId intent availableTools
    let results := (executePlan plan).1
    pure (.executed results intent.type.value)

/-- Update of `routing_stats['intent_accuracy'][key]`. -/
def updateAccuracy (acc : List (String × IntentStats)) (key : String) (success : Bool) :
    List (String × IntentStats) :=
  let acc :=
    if acc.any (fun kv => kv.1 == key) then acc
    else acc ++ [(key, { attempts := 0, successes := 0 })]
  acc.map (fun kv =>
    if kv.1 == key then
      (kv.1, { attempts := kv.2.attempts + 1,
               successes := kv.2.successes + (if success then 1 else 0) })
    else kv)

/-- Model of `ToolRouter.route_request`: bumps `total_requests`, runs the
`try` block, converts any exception into a single failed `ToolResult`, and
updates the success/failure counters (the no-candidates early return skips
them). -/
def routeRequest (tools : List Tool) (stats : RoutingStats) (userInput : String)
    (context : Option Ctx) (planId : String) : List ToolResult × RoutingStats :=
  let stats := { stats with total_requests := stats.total_requests + 1 }
  match routeRequestTry tools userInput context planId with
  | .ok .noTools =>
    ([{ success := false, data := none,
        error := some ("No tools available to handle: " ++ userInput) }], stats)
  | .ok (.executed results intentKey) =>
    let anySuccess := results.any (fun r => r.success)
    let stats :=
      if anySuccess then { stats with successful_routes := stats.successful_routes + 1 }
      else { stats with failed_routes := stats.failed_routes + 1 }
    let stats := { stats with intent_accuracy := updateAccuracy stats.intent_accuracy intentKey anySuccess }
    (results, stats)
  | .error e =>
    let stats := { stats with failed_routes := stats.failed_routes + 1 }
    ([{ success := false, data := none, error := some ("Routing error: " ++ e) }], stats)

/-! ## Concrete fixtures for witnesses and counterexamples

Rational constants in fixtures are written in normalized constructor form
(so that they reduce inside `decide`/`rfl`); `q07 = 0.7`, `q08 = 0.8`,
`q09 = 0.9` are proved below. -/

/-- The rational 7/10 in normalized form. -/
def q07 : ℚ := ⟨7, 10, by norm_num, by norm_num⟩

/-- The rational 4/5 = 0.8 in normalized form. -/
def q08 : ℚ := ⟨4, 5, by norm_num, by norm_num⟩

/-- The rational 9/10 in normalized form. -/
def q09 : ℚ := ⟨9, 10, by norm_num, by norm_num⟩

/-- A `read_file` filesystem capability (as built by `FileSystemTool`). -/
def capRead : ToolCapability :=
  { name := "read_file", description := "Read contents of a file",
    parameters := [("file_path", "string")], required_params := ["file_path"],
    tool_type := .FILE_SYSTEM, confidence_threshold := q07 }

/-- A `write_file` filesystem capability. -/
def capWrite : ToolCapability :=
  { name := "write_file", description := "Write content to a file",
    parameters := [("file_path", "string"), ("content", "string")],
    required_params := ["file_path", "content"], tool_type := .FILE_SYSTEM,
    confidence_threshold := q07 }

/-- An `explain_code` code-analysis capability. -/
def capExplain : ToolCapability :=
  { name := "explain_code", description := "Explain how code works",
    parameters := [("code", "string")], required_params := ["code"],
    tool_type := .CODE_ANALYSIS, confidence_threshold := q07 }

/-- A second `explain_code` capability with a stricter threshold, for a tool
that has two capabilities matching the same intent. -/
def capExplainStrict : ToolCapability :=
  { name := "explain_code", description := "Explain strictly",
    parameters := [("code", "string")], required_params := ["code"],
    tool_type := .CODE_ANALYSIS, confidence_threshold := q08 }

/-- A filesystem tool whose operations always succeed with data `"X"`. -/
def fsTool : Tool :=
  { name := "filesystem", get_capabilities := .ok [capRead, capWrite],
    execute := fun _ _ => .ok { success := true, data := some (.vstr "X") } }

/-- A code-analysis tool that always succeeds with data `"ANA"`. -/
def anaTool : Tool :=
  { name := "code_analysis", get_capabilities := .ok [capExplain],
    execute := fun _ _ => .ok { success := true, data := some (.vstr "ANA") } }

/-- A tool with two capabilities that both match `code_explain`. -/
def twoCapTool : Tool :=
  { name := "twocap", get_capabilities := .ok [capExplain, capExplainStrict],
    execute := fun _ _ => .ok { success := true, data := some (.vstr "E") } }

/-- A tool whose `get_capabilities` raises. -/
def errTool : Tool :=
  { name := "err", get_capabilities := .error "boom",
    execute := fun _ _ => .error "boom" }

/-- A tool whose `execute` always returns a failed result. -/
def failTool : Tool :=
  { name := "bad", get_capabilities := .ok [capWrite],
    execute := fun _ _ => .ok { success := false, data := none, error := some "boom" } }

/-! ## Predicates used in theorem statements -/

/-- The first matching (intent type, static boost) of the rule table:
intent types in table order, patterns within a type in declaration order,
first match wins.  This is the specification-side description of the
classifier's search order, mirrored against `classifyGo` in `C4`. -/
def firstPatternMatch (rules : List (IntentType × List (RE × ℚ))) (norm : List Char) :
    Option (IntentType × ℚ) :=
  match rules with
  | [] => none
  | (intentType, pats) :: rest =>
    match pats.find? (fun p => reTest p.1 norm) with
    | some p => some (intentType, p.2)
    | none => firstPatternMatch rest norm

/-- All static boosts of a rule table lie in [0, 1]. -/
def boostsOK (rules : List (IntentType × List (RE × ℚ))) : Prop :=
  ∀ tp ∈ rules, ∀ p ∈ tp.2, 0 ≤ p.2 ∧ p.2 ≤ 1

/-- A tool that always fails on a capability: every call of `execute` either
returns a failed `ToolResult` or raises. -/
def alwaysFails (t : Tool) (capName : String) : Prop :=
  ∀ ps, match t.execute capName ps with
    | .ok r => r.success = false
    | .error _ => True

/-- Invariant of the sequential loop for a distinguished always-failing step
at position `i`: the step has no dependencies, its bookkeeping fields are
stable, and its execution count tracks its retry count. -/
def badStepInv (i : Nat) (mr : Nat) (steps : List ExecutionStep) : Prop :=
  ∃ B, steps[i]? = some B ∧ B.dependencies = [] ∧
    alwaysFails B.tool B.capability.name ∧ B.max_retries = mr ∧ B.retry_count ≤ mr ∧
    ((B.status = .PENDING ∧ B.execCount = B.retry_count) ∨
     (B.status = .FAILED ∧ B.execCount = B.retry_count + 1))

/-- A shell capability (neither filesystem nor code-analysis). -/
def shCap : ToolCapability :=
  { name := "run_shell", description := "Run a shell command",
    parameters := [], required_params := [],
    tool_type := .SHELL, confidence_threshold := q07 }

/-- A shell tool. -/
def shTool : Tool :=
  { name := "shell", get_capabilities := .ok [shCap],
    execute := fun _ _ => .ok { success := true, data := some (.vstr "S") } }

/-- A `code_explain` intent carrying a `file_path` parameter. -/
def ceIntent : Intent :=
  { type := .CODE_EXPLAIN, confidence := q09,
    parameters := [("file_path", .vstr "a.py")],
    raw_input := "explain a.py", context_hints := none }

/-- A `code_generate` intent whose raw input contains a filename. -/
def cgIntent : Intent :=
  { type := .CODE_GENERATE, confidence := q09, parameters := [],
    raw_input := "create test.py", context_hints := none }

/-- A `task_complex` intent carrying a `file_path` parameter. -/
def tcIntent : Intent :=
  { type := .TASK_COMPLEX, confidence := q09,
    parameters := [("file_path", .vstr "a.py")],
    raw_input := "task things", context_hints := none }


/-- A single always-failing step with no dependencies (fresh bookkeeping). -/
def failStep : ExecutionStep :=
  { id := "f_001", tool := failTool, capability := capWrite,
    parameters := [("file_path", .vstr "f"), ("content", .vstr "c")] }

/-- A single-step plan around `failStep`. -/
def failPlan : ExecutionPlan :=
  { id := "f", intent := cgIntent, steps := [failStep] }

/-- An always-failing step whose dependency `p_001` can never complete. -/
def blockedStep : ExecutionStep :=
  { id := "p_002", tool := failTool, capability := capWrite,
    parameters := [], dependencies := ["p_001"] }

/-- A plan whose only step is blocked on a missing dependency. -/
def blockedPlan : ExecutionPlan :=
  { id := "p", intent := cgIntent, steps := [blockedStep] }

/-- Step A of a concrete two-step threading plan: reads via `fsTool`
(which succeeds with data `"X"`). -/
def stepA : ExecutionStep :=
  { id := "p_001", tool := fsTool, capability := capRead,
    parameters := [("file_path", .vstr "a.py")] }

/-- Step B of the threading plan: its only parameter is the deferred
reference to step A's result. -/
def stepB : ExecutionStep :=
  { id := "p_002", tool := fsTool, capability := capWrite,
    parameters := [("content", .vstr "$\x7bstep_p_001_result\x7d")],
    dependencies := ["p_001"] }

/-- The two-step threading plan. -/
def threadPlan : ExecutionPlan :=
  { id := "p", intent := ceIntent, steps := [stepA, stepB] }

/-! # Theorems -/

theorem q07_eq : q07 = 0.7 := by
  rw [q07, Rat.mk'_eq_divInt, Rat.divInt_eq_div]
  norm_num

theorem q08_eq : q08 = 0.8 := by
  rw [q08, Rat.mk'_eq_divInt, Rat.divInt_eq_div]
  norm_num

theorem q09_eq : q09 = 0.9 := by
  rw [q09, Rat.mk'_eq_divInt, Rat.divInt_eq_div]
  norm_num

/-! ## Lemmas about the registry's sort (`find_tools_for_intent`) -/

theorem insertDesc_perm (x : Tool × ToolCapability) (l : List (Tool × ToolCapability)) :
    (insertDesc x l).Perm (x :: l) := by
  induction l with
  | nil => simp [insertDesc]
  | cons y ys ih =>
    simp only [insertDesc]
    split
    · exact ((ih.cons y).trans (List.Perm.swap x y ys))
    · exact List.Perm.refl _

theorem sortByThresholdDesc_perm (l : List (Tool × ToolCapability)) :
    (sortByThresholdDesc l).Perm l := by
  induction l with
  | nil => simp [sortByThresholdDesc]
  | cons x xs ih =>
    exact (insertDesc_perm x (sortByThresholdDesc xs)).trans (ih.cons x)

theorem insertDesc_sorted (x : Tool × ToolCapability) (l : List (Tool × ToolCapability))
    (h : l.Sorted (fun a b => b.2.confidence_threshold ≤ a.2.confidence_threshold)) :
    (insertDesc x l).Sorted (fun a b => b.2.confidence_threshold ≤ a.2.confidence_threshold) := by
  induction l with
  | nil => simp [insertDesc]
  | cons y ys ih =>
    rw [List.sorted_cons] at h
    obtain ⟨hy, hs⟩ := h
    simp only [insertDesc]
    split
    · rename_i hcmp
      rw [List.sorted_cons]
      refine ⟨?_, ih hs⟩
      intro z hz
      rcases List.mem_cons.mp ((insertDesc_perm x ys).mem_iff.mp hz) with hzx | hzys
      · subst hzx
        exact le_of_lt hcmp
      · exact hy z hzys
    · rename_i hcmp
      push_neg at hcmp
      rw [List.sorted_cons]
      refine ⟨?_, List.sorted_cons.mpr ⟨hy, hs⟩⟩
      intro z hz
      rcases List.mem_cons.mp hz with hzy | hzys
      · subst hzy
        exact hcmp
      · exact le_trans (hy z hzys) hcmp

theorem sortByThresholdDesc_sorted (l : List (Tool × ToolCapability)) :
    (sortByThresholdDesc l).Sorted (fun a b => b.2.confidence_threshold ≤ a.2.confidence_threshold) := by
  induction l with
  | nil => simp [sortByThresholdDesc]
  | cons x xs ih => exact insertDesc_sorted x _ ih

theorem collectMatches_all_match (tools : List Tool) (intent : String) (confidence : ℚ)
    (m : List (Tool × ToolCapability)) (h : collectMatches tools intent confidence = .ok m) :
    ∀ p ∈ m, p.2.matchesIntent intent confidence = true := by
  induction tools generalizing m with
  | nil =>
    simp only [collectMatches, pure, Except.pure] at h
    cases h
    intro p hp
    simp at hp
  | cons tool rest ih =>
    simp only [collectMatches, canHandle, bind, Except.bind] at h
    cases hcaps : tool.get_capabilities with
    | error e => rw [hcaps] at h; cases h
    | ok caps =>
      rw [hcaps] at h
      simp only [pure, Except.pure] at h
      cases hrest : collectMatches rest intent confidence with
      | error e => rw [hrest] at h; cases h
      | ok restM =>
        rw [hrest] at h
        cases hfind : caps.find? (fun c => c.matchesIntent intent confidence) with
        | none =>
          rw [hfind] at h
          injection h with h2
          subst h2
          exact ih restM hrest
        | some c =>
          rw [hfind] at h
          injection h with h2
          subst h2
          intro p hp
          rcases List.mem_cons.mp hp with hp1 | hp2
          · subst hp1
            have hfs := List.find?_some hfind
            simpa using hfs
          · exact ih restM hrest p hp2

/-! ## C7: `find_tools_for_intent` ordering and determinism -/

/-- C7, counterexample to the claim as stated: `find_tools_for_intent` does
NOT return all (tool, capability) pairs whose capability matches — for a
tool with two capabilities matching the intent (here both named
`explain_code`, thresholds 0.7 and 0.8, confidence 0.9), `can_handle`
returns only the first, so the second matching pair is absent from the
result. -/
theorem C7_counterexample :
    capExplainStrict.matchesIntent "code_explain" q09 = true ∧
    (findToolsForIntent [twoCapTool] "code_explain" q09).map
        (fun l => l.map (fun p => (p.1.name, p.2.description))) =
      .ok [("twocap", "Explain how code works")] := by
  constructor
  · decide
  · rfl

/-- C7, amended: `find_tools_for_intent` returns, for each registered tool in
registration order, at most one pair — the tool's first capability (in
`get_capabilities` order) that matches the intent at the given confidence
(the collection `collectMatches`) — stably sorted descending by the
capability's own `confidence_threshold`; every returned pair matches, and
the function is deterministic (a pure function of its arguments). -/
theorem C7_find_tools_sorted (tools : List Tool) (intent : String) (confidence : ℚ)
    (m : List (Tool × ToolCapability)) (h : collectMatches tools intent confidence = .ok m) :
    findToolsForIntent tools intent confidence = .ok (sortByThresholdDesc m) ∧
    (sortByThresholdDesc m).Perm m ∧
    (sortByThresholdDesc m).Sorted
      (fun a b => b.2.confidence_threshold ≤ a.2.confidence_threshold) ∧
    (∀ p ∈ sortByThresholdDesc m, p.2.matchesIntent intent confidence = true) ∧
    findToolsForIntent tools intent confidence = findToolsForIntent tools intent confidence := by
  refine ⟨?_, sortByThresholdDesc_perm m, sortByThresholdDesc_sorted m, ?_, rfl⟩
  · simp [findToolsForIntent, bind, Except.bind, h, pure, Except.pure]
  · intro p hp
    exact collectMatches_all_match tools intent confidence m h p
      ((sortByThresholdDesc_perm m).mem_iff.mp hp)

/-- Witness for `C7_find_tools_sorted` at a concrete registry. -/
theorem C7_witness :
    findToolsForIntent [fsTool, anaTool] "code_explain" q09 =
      .ok (sortByThresholdDesc [(anaTool, capExplain)]) ∧
    (sortByThresholdDesc [(anaTool, capExplain)]).Perm [(anaTool, capExplain)] ∧
    (sortByThresholdDesc [(anaTool, capExplain)]).Sorted
      (fun a b => b.2.confidence_threshold ≤ a.2.confidence_threshold) ∧
    (∀ p ∈ sortByThresholdDesc [(anaTool, capExplain)],
      p.2.matchesIntent "code_explain" q09 = true) ∧
    findToolsForIntent [fsTool, anaTool] "code_explain" q09 =
      findToolsForIntent [fsTool, anaTool] "code_explain" q09 :=
  C7_find_tools_sorted [fsTool, anaTool] "code_explain" q09 [(anaTool, capExplain)] rfl

/-! ## Classifier lemmas (C4, C5) -/

theorem intentPatterns_boostsOK : boostsOK intentPatterns := by
  simp only [boostsOK, intentPatterns, List.forall_mem_cons, List.forall_mem_nil, and_true]
  norm_num

theorem confKeywordStep_ge (u : List Char) (it : IntentType) (b : ℚ)
    (cat : String × List String) : b ≤ confKeywordStep u it b cat := by
  unfold confKeywordStep
  dsimp only
  split
  · split
    · exact le_add_of_nonneg_right (by positivity)
    · split
      · exact le_add_of_nonneg_right (by positivity)
      · split
        · exact le_add_of_nonneg_right (by positivity)
        · exact le_refl b
  · exact le_refl b

theorem confFoldl_ge (u : List Char) (it : IntentType)
    (l : List (String × List String)) : ∀ b : ℚ, b ≤ l.foldl (confKeywordStep u it) b := by
  induction l with
  | nil => intro b; simp
  | cons c cs ih =>
    intro b
    exact le_trans (confKeywordStep_ge u it b c) (ih _)

theorem calculateConfidence_nonneg (u : List Char) (it : IntentType) (ctx : Option Ctx) :
    0 ≤ calculateConfidence u it ctx := by
  unfold calculateConfidence
  refine le_min (by norm_num) ?_
  refine le_trans ?_ (confFoldl_ge u it contextKeywords _)
  dsimp only
  split_ifs <;> norm_num

theorem calculateConfidence_le_one (u : List Char) (it : IntentType) (ctx : Option Ctx) :
    calculateConfidence u it ctx ≤ 1 := by
  unfold calculateConfidence
  exact min_le_left _ _

theorem classifyGo_of_firstMatch (rules : List (IntentType × List (RE × ℚ)))
    (norm : List Char) (context : Option Ctx) (ty : IntentType) (b : ℚ)
    (h : firstPatternMatch rules norm = some (ty, b)) :
    classifyGo rules norm context =
      some { type := ty, confidence := min 1 (calculateConfidence norm ty context + b),
             parameters := extractParameters norm ty, raw_input := String.mk norm,
             context_hints := context } := by
  induction rules with
  | nil => simp [firstPatternMatch] at h
  | cons tp rest ih =>
    obtain ⟨ity, pats⟩ := tp
    simp only [firstPatternMatch] at h
    simp only [classifyGo]
    cases hfind : pats.find? (fun p => reTest p.1 norm) with
    | some p =>
      rw [hfind] at h
      injection h with h2
      injection h2 with hty hb
      subst hty
      subst hb
      rfl
    | none =>
      rw [hfind] at h
      exact ih h

theorem firstPatternMatch_mem (rules : List (IntentType × List (RE × ℚ)))
    (norm : List Char) (ty : IntentType) (b : ℚ)
    (h : firstPatternMatch rules norm = some (ty, b)) :
    ∃ tp ∈ rules, ∃ p ∈ tp.2, p.2 = b := by
  induction rules with
  | nil => simp [firstPatternMatch] at h
  | cons tp rest ih =>
    obtain ⟨ity, pats⟩ := tp
    simp only [firstPatternMatch] at h
    cases hfind : pats.find? (fun p => reTest p.1 norm) with
    | some p =>
      rw [hfind] at h
      injection h with h2
      injection h2 with hty hb
      exact ⟨(ity, pats), List.mem_cons_self _ _, p, List.mem_of_find?_eq_some hfind, hb⟩
    | none =>
      rw [hfind] at h
      obtain ⟨tp', htp', hp⟩ := ih h
      exact ⟨tp', List.mem_cons_of_mem _ htp', hp⟩

theorem classifyByKeywords_conf_bounds (u : List Char) (ctx : Option Ctx) :
    0 ≤ (classifyByKeywords u ctx).confidence ∧ (classifyByKeywords u ctx).confidence ≤ 1 := by
  unfold classifyByKeywords
  dsimp only
  split
  · constructor
    · exact le_min (by norm_num) (by positivity)
    · exact le_trans (min_le_left _ _) (by norm_num)
  · norm_num

theorem classifyGo_conf_bounds (rules : List (IntentType × List (RE × ℚ)))
    (norm : List Char) (ctx : Option Ctx) (intent : Intent) (hok : boostsOK rules)
    (h : classifyGo rules norm ctx = some intent) :
    0 ≤ intent.confidence ∧ intent.confidence ≤ 1 := by
  induction rules with
  | nil => simp [classifyGo] at h
  | cons tp rest ih =>
    obtain ⟨ity, pats⟩ := tp
    simp only [classifyGo] at h
    cases hfind : pats.find? (fun p => reTest p.1 norm) with
    | some p =>
      rw [hfind] at h
      injection h with h2
      subst h2
      have hb := hok (ity, pats) (List.mem_cons_self _ _) p (List.mem_of_find?_eq_some hfind)
      have cc0 := calculateConfidence_nonneg norm ity ctx
      constructor
      · exact le_min (by norm_num) (by linarith [hb.1])
      · exact min_le_left _ _
    | none =>
      rw [hfind] at h
      refine ih ?_ h
      intro tp' htp' p' hp'
      exact hok tp' (List.mem_cons_of_mem _ htp') p' hp'

theorem classifyGo_of_firstMatch_none (rules : List (IntentType × List (RE × ℚ)))
    (norm : List Char) (context : Option Ctx)
    (h : firstPatternMatch rules norm = none) :
    classifyGo rules norm context = none := by
  induction rules with
  | nil => rfl
  | cons tp rest ih =>
    obtain ⟨ity, pats⟩ := tp
    simp only [firstPatternMatch] at h
    simp only [classifyGo]
    cases hfind : pats.find? (fun p => reTest p.1 norm) with
    | some p => rw [hfind] at h; exact absurd h (by simp)
    | none => rw [hfind] at h; exact ih h

theorem keywordFold_no_match (l : List (IntentType × List String)) (u : List Char)
    (acc : IntentType × Nat)
    (h : ∀ cat ∈ l, ∀ kw ∈ cat.2, containsSub u kw.data = false) :
    l.foldl (fun best cat =>
      let score : Nat := (cat.2.filter (fun kw => containsSub u kw.data)).length
      if score > best.2 then (cat.1, score) else best) acc = acc := by
  induction l generalizing acc with
  | nil => rfl
  | cons c rest ih =>
    have hc : c.2.filter (fun kw => containsSub u kw.data) = [] := by
      rw [List.filter_eq_nil_iff]
      intro kw hkw
      simp [h c (List.mem_cons_self _ _) kw hkw]
    simp only [List.foldl_cons]
    rw [hc]
    simp only [List.length_nil]
    rw [if_neg (by omega)]
    exact ih acc (fun cat hcat => h cat (List.mem_cons_of_mem _ hcat))

theorem classifyByKeywords_no_keyword (u : List Char) (ctx : Option Ctx)
    (h : ∀ cat ∈ keywordIntents, ∀ kw ∈ cat.2, containsSub u kw.data = false) :
    classifyByKeywords u ctx =
      { type := .UNKNOWN, confidence := 0.1, parameters := [],
        raw_input := String.mk u, context_hints := ctx } := by
  unfold classifyByKeywords
  dsimp only
  rw [keywordFold_no_match keywordIntents u (IntentType.UNKNOWN, 0) h]
  simp

set_option maxHeartbeats 4000000 in
/-- C5: `classify` is total (a pure Lean function) and its confidence
always lies in [0, 1]; for every input whose normalized form matches no
pattern of the rule table and contains none of the fallback keywords, the
result has type `unknown` with confidence exactly 0.1; in particular
`classify "" none` is the unknown intent at confidence 0.1 with no
parameters. -/
theorem C5_classifier_total :
    (∀ (input : String) (context : Option Ctx),
      0 ≤ (classify input context).confidence ∧ (classify input context).confidence ≤ 1) ∧
    (∀ (input : String) (context : Option Ctx),
      firstPatternMatch intentPatterns (stripLower input.data) = none →
      (∀ cat ∈ keywordIntents, ∀ kw ∈ cat.2,
        containsSub (stripLower input.data) kw.data = false) →
      (classify input context).type = .UNKNOWN ∧
      (classify input context).confidence = 0.1) ∧
    classify "" none =
      { type := .UNKNOWN, confidence := 0.1, parameters := [], raw_input := "",
        context_hints := none } := by
  refine ⟨?_, ?_, rfl⟩
  · intro input context
    simp only [classify]
    cases h : classifyGo intentPatterns (stripLower input.data) context with
    | some intent =>
      simp only [h]
      exact classifyGo_conf_bounds intentPatterns (stripLower input.data) context intent
        intentPatterns_boostsOK h
    | none =>
      simp only [h]
      exact classifyByKeywords_conf_bounds (stripLower input.data) context
  · intro input context hpat hkw
    have hgo := classifyGo_of_firstMatch_none intentPatterns (stripLower input.data)
      context hpat
    have hbk := classifyByKeywords_no_keyword (stripLower input.data) context hkw
    simp [classify, hgo, hbk]

set_option maxHeartbeats 4000000 in
/-- Witness for the unknown-fallback clause at the concrete input
`"zzzz"`, which matches no pattern and contains no fallback keyword. -/
theorem C5_witness :
    (classify "zzzz" none).type = .UNKNOWN ∧
    (classify "zzzz" none).confidence = 0.1 :=
  C5_classifier_total.2.1 "zzzz" none rfl (by decide)

/-- C4: when the normalized input matches some pattern of the rule table,
`classify` returns the intent type of the first matching pattern (types in
table order, patterns in declaration order, `firstPatternMatch`); with empty
context the confidence lies in [0, 1] and is at least that pattern's static
boost. -/
theorem C4_first_match_wins (input : String) (context : Option Ctx) (ty : IntentType) (b : ℚ)
    (h : firstPatternMatch intentPatterns (stripLower input.data) = some (ty, b)) :
    (classify input context).type = ty ∧
    0 ≤ (classify input none).confidence ∧ (classify input none).confidence ≤ 1 ∧
    b ≤ (classify input none).confidence := by
  have h1 := classifyGo_of_firstMatch intentPatterns (stripLower input.data) context ty b h
  have h2 := classifyGo_of_firstMatch intentPatterns (stripLower input.data) none ty b h
  have hb : 0 ≤ b ∧ b ≤ 1 := by
    obtain ⟨tp, htp, p, hp, hpb⟩ := firstPatternMatch_mem intentPatterns _ ty b h
    exact hpb ▸ intentPatterns_boostsOK tp htp p hp
  have cc0 := calculateConfidence_nonneg (stripLower input.data) ty none
  refine ⟨?_, ?_, ?_, ?_⟩
  · simp only [classify, h1]
  · simp only [classify, h2]
    exact le_min (by norm_num) (by linarith [hb.1])
  · simp only [classify, h2]
    exact min_le_left _ _
  · simp only [classify, h2]
    exact le_min hb.2 (le_add_of_nonneg_left cc0)

set_option maxHeartbeats 4000000 in
/-- Witness for `C4_first_match_wins` at input `"explain code"`, whose first
matching pattern is the first CODE_EXPLAIN pattern with boost 0.3. -/
theorem C4_witness :
    (classify "explain code" none).type = .CODE_EXPLAIN ∧
    0 ≤ (classify "explain code" none).confidence ∧
    (classify "explain code" none).confidence ≤ 1 ∧
    (0.3 : ℚ) ≤ (classify "explain code" none).confidence :=
  C4_first_match_wins "explain code" none .CODE_EXPLAIN 0.3 rfl

/-! ## C6, C9, C10: plan construction -/

/-- C6: with exactly the two candidates (a filesystem `read_file` capability
and a code-analysis capability) and a `code_explain` or `code_review` intent
carrying `file_path`, `create_plan` builds exactly two steps: a read step
with the `read_file` capability and an analysis step depending on the read
step's id. -/
theorem C6_file_based_two_steps (fsT anaT : Tool) (cr ca : ToolCapability)
    (intent : Intent) (planId : String)
    (hcr1 : cr.tool_type = .FILE_SYSTEM) (hcr2 : cr.name = "read_file")
    (hca : ca.tool_type = .CODE_ANALYSIS)
    (hty : intent.type = .CODE_EXPLAIN ∨ intent.type = .CODE_REVIEW)
    (hfp : hasKey intent.parameters "file_path" = true)
    (avail : List (Tool × ToolCapability))
    (havail : avail = [(fsT, cr), (anaT, ca)] ∨ avail = [(anaT, ca), (fsT, cr)]) :
    (createPlan planId intent avail).steps.length = 2 ∧
    ((createPlan planId intent avail).steps.map (fun s => (s.capability.name, s.dependencies))) =
      [(cr.name, []), (ca.name, [stepId planId 1])] ∧
    ((createPlan planId intent avail).steps.map (fun s => s.id)) =
      [stepId planId 1, stepId planId 2] := by
  have hty' : (intent.type == IntentType.TASK_COMPLEX) = false := by
    rcases hty with h | h <;> rw [h] <;> decide
  have htyc : (intent.type == IntentType.CODE_EXPLAIN || intent.type == IntentType.CODE_REVIEW) = true := by
    rcases hty with h | h <;> rw [h] <;> decide
  rcases havail with rfl | rfl <;>
    simp [createPlan, hty', htyc, createFileBasedPlan, hcr1, hcr2, hca, ToolType.value, hfp]

theorem buildDefaultSteps_no_deps (planId : String) (intent : Intent) :
    ∀ (i : Nat) (l : List (Tool × ToolCapability)),
      ∀ step ∈ buildDefaultSteps planId intent i l, step.dependencies = [] := by
  intro i l
  induction l generalizing i with
  | nil => intro step h; simp [buildDefaultSteps] at h
  | cons tc rest ih =>
    intro step h
    simp only [buildDefaultSteps, List.mem_cons] at h
    rcases h with rfl | h
    · rfl
    · exact ih (i + 1) step h

/-- C9, amended: every plan built by `create_plan` has steps whose
dependencies refer only to step ids present in the same plan, except in the
code-to-file corner (a `code_generate` intent whose raw input contains a
filename, candidate list not of length one, a `write_file` filesystem
candidate present but no `generate_code` code-analysis candidate, and a
filename extracted): there the write step depends on the id of a generate
step that was never added. -/
theorem C9_dependency_closure (planId : String) (intent : Intent)
    (avail : List (Tool × ToolCapability))
    (hcorner : ¬ (avail.length ≠ 1 ∧ intent.type = .CODE_GENERATE ∧
      containsFilename intent.raw_input.data = true ∧
      (avail.filter (fun tc => tc.2.tool_type.value == "code_analysis" &&
        tc.2.name == "generate_code")).isEmpty = true ∧
      (avail.filter (fun tc => tc.2.tool_type.value == "filesystem" &&
        tc.2.name == "write_file")).isEmpty = false ∧
      (extractFilename intent.raw_input.data).isSome = true)) :
    ∀ step ∈ (createPlan planId intent avail).steps, ∀ d ∈ step.dependencies,
      d ∈ (createPlan planId intent avail).steps.map (fun s => s.id) := by
  by_cases h1 : (avail.length == 1) = true
  · simp only [createPlan, h1, if_true]
    rcases avail with _ | ⟨⟨t, c⟩, rest⟩
    · simp at h1
    · intro step hs d hd
      simp only [List.mem_singleton] at hs
      subst hs
      simp at hd
  · simp only [Bool.not_eq_true] at h1
    by_cases h2 : (intent.type == IntentType.TASK_COMPLEX) = true
    · simp only [createPlan, h1, h2, Bool.false_eq_true, if_false, if_true]
      unfold createComplexPlan
      rcases hft : avail.filter (fun tc => tc.2.tool_type.value == "filesystem") with _ | ⟨⟨ft, fc⟩, frest⟩ <;>
        by_cases hfp : hasKey intent.parameters "file_path" = true <;>
          rcases hck : avail.filter (fun tc => tc.2.tool_type.value == "code_analysis") with _ | ⟨⟨ct, cc⟩, crest⟩ <;>
            simp only [hfp, Bool.not_eq_true] at * <;>
              simp [hft, hck, hfp]
    · by_cases h3 : ((intent.type == IntentType.CODE_EXPLAIN ||
          intent.type == IntentType.CODE_REVIEW) && hasKey intent.parameters "file_path") = true
      · simp only [createPlan, h1, h2, h3, Bool.false_eq_true, if_false, if_true]
        unfold createFileBasedPlan
        rcases hft : avail.filter (fun tc =>
            tc.2.tool_type.value == "filesystem" && tc.2.name == "read_file") with _ | ⟨⟨ft, fc⟩, frest⟩ <;>
          by_cases hfp : hasKey intent.parameters "file_path" = true <;>
            rcases hck : avail.filter (fun tc => tc.2.tool_type.value == "code_analysis") with _ | ⟨⟨ct, cc⟩, crest⟩ <;>
              simp only [hfp, Bool.not_eq_true] at * <;>
                simp [hft, hck, hfp]
      · by_cases h4 : ((intent.type == IntentType.CODE_GENERATE) &&
            containsFilename intent.raw_input.data) = true
        · simp only [createPlan, h1, h2, h3, h4, Bool.false_eq_true, if_false, if_true]
          unfold createCodeToFilePlan
          rcases hck : avail.filter (fun tc =>
              tc.2.tool_type.value == "code_analysis" && tc.2.name == "generate_code") with _ | ⟨⟨ct, cc⟩, crest⟩ <;>
            rcases hft : avail.filter (fun tc =>
                tc.2.tool_type.value == "filesystem" && tc.2.name == "write_file") with _ | ⟨⟨ft, fc⟩, frest⟩ <;>
              rcases hfn : extractFilename intent.raw_input.data with _ | fname
          · simp [hck, hft, hfn]
          · simp [hck, hft, hfn]
          · simp [hck, hft, hfn]
          · exfalso
            apply hcorner
            refine ⟨?_, ?_, ?_, ?_, ?_, ?_⟩
            · intro hlen
              rw [hlen] at h1
              simp at h1
            · have hb := (Bool.and_eq_true_iff.mp h4).1
              exact beq_iff_eq.mp hb
            · exact (Bool.and_eq_true_iff.mp h4).2
            · rw [hck]; rfl
            · rw [hft]; rfl
            · rw [hfn]; rfl
          · simp [hck, hft, hfn]
          · simp [hck, hft, hfn]
          · simp [hck, hft, hfn]
          · simp [hck, hft, hfn]
        · simp only [createPlan, h1, h2, h3, h4, Bool.false_eq_true, if_false]
          intro step hs d hd
          have hnd := buildDefaultSteps_no_deps planId intent 0 (filterRelevantTools intent avail) step hs
          rw [hnd] at hd
          simp at hd

set_option maxHeartbeats 4000000 in
/-- C9, counterexample to the claim as stated: for a `code_generate` intent
with raw input containing the filename `test.py` and two candidates that
include a `write_file` filesystem capability but no `generate_code`
capability, `create_plan` returns a plan whose single step (`p_002`) depends
on the never-added generate step id `p_001`. -/
theorem C9_counterexample :
    ((createPlan "p" cgIntent [(fsTool, capWrite), (fsTool, capRead)]).steps.map
      (fun s => s.dependencies)) = [["p_001"]] ∧
    ((createPlan "p" cgIntent [(fsTool, capWrite), (fsTool, capRead)]).steps.map
      (fun s => s.id)) = ["p_002"] := by
  constructor <;> rfl

set_option maxHeartbeats 1000000 in
/-- Witness for `C9_dependency_closure`: in a concrete `task_complex` plan,
the analysis step's dependency `p_001` is among the plan's step ids. -/
theorem C9_witness :
    "p_001" ∈ (createPlan "p" tcIntent [(fsTool, capRead), (anaTool, capExplain)]).steps.map
      (fun s => s.id) := by
  refine C9_dependency_closure "p" tcIntent [(fsTool, capRead), (anaTool, capExplain)]
    (fun hc => absurd hc.2.1 (by decide))
    { id := "p_002", tool := anaTool, capability := capExplain,
      parameters := prepareParameters tcIntent capExplain, dependencies := ["p_001"] }
    ?_ "p_001" ?_
  · exact List.mem_cons_of_mem _ (List.mem_cons_self _ _)
  · exact List.mem_cons_self _ _

/-- Witness for `C6_file_based_two_steps` at a concrete registry and
intent. -/
theorem C6_witness :
    (createPlan "p" ceIntent [(fsTool, capRead), (anaTool, capExplain)]).steps.length = 2 ∧
    ((createPlan "p" ceIntent [(fsTool, capRead), (anaTool, capExplain)]).steps.map
        (fun s => (s.capability.name, s.dependencies))) =
      [(capRead.name, []), (capExplain.name, [stepId "p" 1])] ∧
    ((createPlan "p" ceIntent [(fsTool, capRead), (anaTool, capExplain)]).steps.map
        (fun s => s.id)) = [stepId "p" 1, stepId "p" 2] :=
  C6_file_based_two_steps fsTool anaTool capRead capExplain ceIntent "p" rfl rfl rfl
    (Or.inl rfl) rfl _ (Or.inl rfl)

theorem toolTypeValue_filesystem (t : ToolType) :
    ((t.value == "filesystem") = true) ↔ t = .FILE_SYSTEM := by
  cases t <;> decide

theorem toolTypeValue_code_analysis (t : ToolType) :
    ((t.value == "code_analysis") = true) ↔ t = .CODE_ANALYSIS := by
  cases t <;> decide

theorem executePlan_nil (p : ExecutionPlan) (hs : p.steps = [])
    (hp : p.parallel_execution = false) :
    executePlan p = ([], p) ∧ planIsComplete p.steps = true := by
  constructor
  · simp [executePlan, hp, hs, execLoop, planMeasure, planIsComplete]
  · simp [hs, planIsComplete]

/-- C10: zero-step plans.  (a) For a `code_explain` intent with a
`file_path` parameter and a candidate list not of length one containing no
capability named `read_file`, `create_plan` returns a plan with no steps;
(b) likewise for a `task_complex` intent when no candidate has category
filesystem or code_analysis.  Executing such a zero-step plan returns the
empty result list with `is_complete()` true — indistinguishable from a
successfully completed plan. -/
theorem C10_zero_step_plans (planId : String) (intent : Intent)
    (avail : List (Tool × ToolCapability)) :
    (intent.type = .CODE_EXPLAIN → hasKey intent.parameters "file_path" = true →
      (avail.length == 1) = false →
      (∀ tc ∈ avail, ¬ tc.2.name = "read_file") →
      (createPlan planId intent avail).steps = [] ∧
      executePlan (createPlan planId intent avail) = ([], createPlan planId intent avail) ∧
      planIsComplete (createPlan planId intent avail).steps = true) ∧
    (intent.type = .TASK_COMPLEX →
      (avail.length == 1) = false →
      (∀ tc ∈ avail, ¬ tc.2.tool_type = .FILE_SYSTEM ∧ ¬ tc.2.tool_type = .CODE_ANALYSIS) →
      (createPlan planId intent avail).steps = [] ∧
      executePlan (createPlan planId intent avail) = ([], createPlan planId intent avail) ∧
      planIsComplete (createPlan planId intent avail).steps = true) := by
  constructor
  · intro hty hfp hlen hnames
    have h2 : (intent.type == IntentType.TASK_COMPLEX) = false := by rw [hty]; decide
    have h3 : ((intent.type == IntentType.CODE_EXPLAIN ||
        intent.type == IntentType.CODE_REVIEW) && hasKey intent.parameters "file_path") = true := by
      rw [hty, hfp]; decide
    have hfil : avail.filter (fun tc =>
        tc.2.tool_type.value == "filesystem" && tc.2.name == "read_file") = [] := by
      rw [List.filter_eq_nil_iff]
      intro tc htc
      simp only [Bool.and_eq_true, beq_iff_eq, not_and]
      intro _ hname
      exact hnames tc htc hname
    have hplan : createPlan planId intent avail = { id := planId, intent := intent } := by
      simp only [createPlan, hlen, h2, h3, Bool.false_eq_true, if_false, if_true]
      unfold createFileBasedPlan
      rw [hfil]
    rw [hplan]
    exact ⟨rfl, (executePlan_nil _ rfl rfl).1, (executePlan_nil _ rfl rfl).2⟩
  · intro hty hlen htypes
    have h2 : (intent.type == IntentType.TASK_COMPLEX) = true := by rw [hty]; decide
    have hfil1 : avail.filter (fun tc => tc.2.tool_type.value == "filesystem") = [] := by
      rw [List.filter_eq_nil_iff]
      intro tc htc
      intro hc
      exact (htypes tc htc).1 ((toolTypeValue_filesystem _).mp hc)
    have hfil2 : avail.filter (fun tc => tc.2.tool_type.value == "code_analysis") = [] := by
      rw [List.filter_eq_nil_iff]
      intro tc htc
      intro hc
      exact (htypes tc htc).2 ((toolTypeValue_code_analysis _).mp hc)
    have hplan : createPlan planId intent avail = { id := planId, intent := intent } := by
      simp only [createPlan, hlen, h2, Bool.false_eq_true, if_false, if_true]
      unfold createComplexPlan
      rw [hfil1, hfil2]
    rw [hplan]
    exact ⟨rfl, (executePlan_nil _ rfl rfl).1, (executePlan_nil _ rfl rfl).2⟩

/-- Witness for `C10_zero_step_plans` at concrete registries. -/
theorem C10_witness :
    ((createPlan "p" ceIntent [(anaTool, capExplain), (shTool, shCap)]).steps = [] ∧
      executePlan (createPlan "p" ceIntent [(anaTool, capExplain), (shTool, shCap)]) =
        ([], createPlan "p" ceIntent [(anaTool, capExplain), (shTool, shCap)]) ∧
      planIsComplete (createPlan "p" ceIntent [(anaTool, capExplain), (shTool, shCap)]).steps = true) ∧
    ((createPlan "q" tcIntent [(shTool, shCap), (shTool, shCap)]).steps = [] ∧
      executePlan (createPlan "q" tcIntent [(shTool, shCap), (shTool, shCap)]) =
        ([], createPlan "q" tcIntent [(shTool, shCap), (shTool, shCap)]) ∧
      planIsComplete (createPlan "q" tcIntent [(shTool, shCap), (shTool, shCap)]).steps = true) :=
  ⟨(C10_zero_step_plans "p" ceIntent [(anaTool, capExplain), (shTool, shCap)]).1
      rfl rfl rfl (by decide),
   (C10_zero_step_plans "q" tcIntent [(shTool, shCap), (shTool, shCap)]).2
      rfl rfl (by decide)⟩

/-! ## Sequential-loop infrastructure: step execution, termination measure,
fuel sufficiency, and the always-failing-step invariant (C2, C3) -/

theorem stepExecute_fields (s : ExecutionStep) (ctx : Params) :
    (stepExecute s ctx).1.id = s.id ∧ (stepExecute s ctx).1.tool = s.tool ∧
    (stepExecute s ctx).1.capability = s.capability ∧
    (stepExecute s ctx).1.parameters = s.parameters ∧
    (stepExecute s ctx).1.dependencies = s.dependencies ∧
    (stepExecute s ctx).1.retry_count = s.retry_count ∧
    (stepExecute s ctx).1.max_retries = s.max_retries ∧
    (stepExecute s ctx).1.execCount = s.execCount + 1 := by
  unfold stepExecute
  dsimp only
  split
  · split <;> simp
  · simp

theorem stepExecute_status (s : ExecutionStep) (ctx : Params) :
    ((stepExecute s ctx).1.status = .COMPLETED ∧ (stepExecute s ctx).2.success = true) ∨
    ((stepExecute s ctx).1.status = .FAILED ∧ (stepExecute s ctx).2.success = false) := by
  unfold stepExecute
  dsimp only
  split
  · rename_i r hr
    by_cases hs : r.success = true
    · left; simp [hs]
    · right
      simp only [Bool.not_eq_true] at hs
      simp [hs]
  · right; simp

theorem stepExecute_alwaysFails (s : ExecutionStep) (ctx : Params)
    (h : alwaysFails s.tool s.capability.name) :
    (stepExecute s ctx).1.status = .FAILED ∧ (stepExecute s ctx).2.success = false := by
  rcases stepExecute_status s ctx with ⟨h1, h2⟩ | h12
  · exfalso
    revert h2
    unfold stepExecute
    dsimp only
    split
    · rename_i r hr
      by_cases hval :
          validateParams s.capability (resolveParameters s.parameters ctx) = true
      · simp only [hval, Bool.not_true, Bool.false_eq_true, if_false] at hr
        have hx := h (resolveParameters s.parameters ctx)
        simp only [pure, Except.pure, bind, Except.bind] at hr
        rw [hr] at hx
        simp [hx]
      · simp only [Bool.not_eq_true] at hval
        simp [hval, throw, throwThe, MonadExceptOf.throw, bind, Except.bind] at hr
    · simp
  · exact h12

theorem stepWeight_exec_le (s : ExecutionStep) (ctx : Params) :
    stepWeight (stepExecute s ctx).1 ≤ stepWeight s := by
  obtain ⟨-, -, -, -, -, hr, hm, -⟩ := stepExecute_fields s ctx
  have hst : (stepExecute s ctx).1.status = .COMPLETED ∨ (stepExecute s ctx).1.status = .FAILED := by
    rcases stepExecute_status s ctx with ⟨h1, -⟩ | ⟨h1, -⟩
    · exact Or.inl h1
    · exact Or.inr h1
  unfold stepWeight
  rw [hr, hm]
  rcases hst with h1 | h1 <;> rw [h1] <;> simp

theorem stepWeight_exec_lt (s : ExecutionStep) (ctx : Params) (h : s.status = .PENDING) :
    stepWeight (stepExecute s ctx).1 < stepWeight s := by
  obtain ⟨-, -, -, -, -, hr, hm, -⟩ := stepExecute_fields s ctx
  have hst : (stepExecute s ctx).1.status = .COMPLETED ∨ (stepExecute s ctx).1.status = .FAILED := by
    rcases stepExecute_status s ctx with ⟨h1, -⟩ | ⟨h1, -⟩
    · exact Or.inl h1
    · exact Or.inr h1
  unfold stepWeight
  rw [hr, hm, h]
  rcases hst with h1 | h1 <;> rw [h1] <;> simp

theorem planMeasure_cons (s : ExecutionStep) (l : List ExecutionStep) :
    planMeasure (s :: l) = stepWeight s + planMeasure l := by
  simp [planMeasure]

theorem planMeasure_set_le (steps : List ExecutionStep) (j : Nat) (st' : ExecutionStep)
    (h : ∀ s, steps[j]? = some s → stepWeight st' ≤ stepWeight s) :
    planMeasure (steps.set j st') ≤ planMeasure steps := by
  induction steps generalizing j with
  | nil => simp
  | cons a l ih =>
    cases j with
    | zero =>
      simp only [List.set_cons_zero, planMeasure_cons]
      have := h a (by simp)
      omega
    | succ j =>
      simp only [List.set_cons_succ, planMeasure_cons]
      have := ih j (fun s hs => h s (by simpa using hs))
      omega

theorem planMeasure_set_lt (steps : List ExecutionStep) (j : Nat) (st' s : ExecutionStep)
    (hs : steps[j]? = some s) (h : stepWeight st' < stepWeight s) :
    planMeasure (steps.set j st') < planMeasure steps := by
  induction steps generalizing j with
  | nil => simp at hs
  | cons a l ih =>
    cases j with
    | zero =>
      simp only [List.getElem?_cons_zero, Option.some.injEq] at hs
      subst hs
      simp only [List.set_cons_zero, planMeasure_cons]
      omega
    | succ j =>
      simp only [List.getElem?_cons_succ] at hs
      simp only [List.set_cons_succ, planMeasure_cons]
      have := ih j hs
      omega

theorem execSteps_measure_le (idxs : List Nat) (steps : List ExecutionStep)
    (ctx : Params) (res : List ToolResult) :
    planMeasure (execSteps idxs steps ctx res).1 ≤ planMeasure steps := by
  induction idxs generalizing steps ctx res with
  | nil => simp [execSteps]
  | cons i rest ih =>
    simp only [execSteps]
    cases hs : steps[i]? with
    | none => exact ih steps ctx res
    | some st =>
      refine le_trans (ih _ _ _) ?_
      refine planMeasure_set_le steps i _ ?_
      intro s hs'
      rw [hs] at hs'
      injection hs' with hs'
      subst hs'
      exact stepWeight_exec_le st ctx

theorem execSteps_measure_lt (idxs : List Nat) (steps : List ExecutionStep)
    (ctx : Params) (res : List ToolResult) (i : Nat) (s : ExecutionStep)
    (hi : i ∈ idxs) (hs : steps[i]? = some s) (hp : s.status = .PENDING) :
    planMeasure (execSteps idxs steps ctx res).1 < planMeasure steps := by
  induction idxs generalizing steps ctx res with
  | nil => simp at hi
  | cons j rest ih =>
    simp only [execSteps]
    by_cases hji : j = i
    · subst hji
      rw [hs]
      refine lt_of_le_of_lt (execSteps_measure_le _ _ _ _) ?_
      exact planMeasure_set_lt steps j _ s hs (stepWeight_exec_lt s ctx hp)
    · have hi' : i ∈ rest := by
        rcases List.mem_cons.mp hi with h | h
        · exact absurd h.symm hji
        · exact h
      cases hsj : steps[j]? with
      | none => exact ih _ _ _ hi' hs
      | some st =>
        have hset : (steps.set j (stepExecute st ctx).1)[i]? = steps[i]? :=
          List.getElem?_set_ne (fun h => hji h)
        have hs2 : (steps.set j (stepExecute st ctx).1)[i]? = some s := by rw [hset, hs]
        refine lt_of_lt_of_le (ih _ _ _ hi' hs2) ?_
        refine planMeasure_set_le steps j _ ?_
        intro s' hs'
        rw [hsj] at hs'
        injection hs' with hs'
        subst hs'
        exact stepWeight_exec_le st ctx

theorem canRetry_iff (s : ExecutionStep) :
    canRetry s = true ↔ s.status = .FAILED ∧ s.retry_count < s.max_retries := by
  simp [canRetry]

theorem stepWeight_retryReset_le (s : ExecutionStep) :
    stepWeight (retryResetStep s) ≤ stepWeight s := by
  unfold retryResetStep
  split
  · rename_i h
    obtain ⟨hf, hr⟩ := (canRetry_iff s).mp h
    unfold stepWeight
    rw [hf]
    simp
    omega
  · exact le_refl _

theorem stepWeight_retryReset_lt (s : ExecutionStep) (h : canRetry s = true) :
    stepWeight (retryResetStep s) < stepWeight s := by
  unfold retryResetStep
  rw [h]
  simp only [if_true]
  obtain ⟨hf, hr⟩ := (canRetry_iff s).mp h
  unfold stepWeight
  rw [hf]
  simp
  omega

theorem planMeasure_map_retryReset_le (steps : List ExecutionStep) :
    planMeasure (steps.map retryResetStep) ≤ planMeasure steps := by
  induction steps with
  | nil => simp [planMeasure]
  | cons a l ih =>
    simp only [List.map_cons, planMeasure_cons]
    have := stepWeight_retryReset_le a
    omega

theorem retryReset_measure_lt (steps : List ExecutionStep)
    (h : steps.filter canRetry ≠ []) :
    planMeasure (steps.map retryResetStep) < planMeasure steps := by
  induction steps with
  | nil => simp at h
  | cons a l ih =>
    simp only [List.map_cons, planMeasure_cons]
    by_cases ha : canRetry a = true
    · have h1 := stepWeight_retryReset_lt a ha
      have h2 := planMeasure_map_retryReset_le l
      omega
    · have ha' : canRetry a = false := by
        cases hb : canRetry a
        · rfl
        · exact absurd hb ha
      have hfl : l.filter canRetry ≠ [] := by
        intro hl
        apply h
        simp [List.filter_cons, ha', hl]
      have h1 := stepWeight_retryReset_le a
      have h2 := ih hfl
      omega

theorem readyIndices_pending (steps : List ExecutionStep) (i : Nat)
    (h : i ∈ readyIndices steps) :
    ∃ s, steps[i]? = some s ∧ s.status = .PENDING := by
  simp only [readyIndices, List.mem_filter, List.mem_range] at h
  obtain ⟨hlt, hcond⟩ := h
  cases hs : steps[i]? with
  | none => rw [hs] at hcond; cases hcond
  | some s =>
    rw [hs] at hcond
    refine ⟨s, rfl, ?_⟩
    simp only [isReady, Bool.and_eq_true, beq_iff_eq] at hcond
    exact hcond.1

theorem execLoop_total (fuel : Nat) :
    ∀ (plan : ExecutionPlan) (res : List ToolResult),
      planMeasure plan.steps < fuel → ∃ out, execLoop fuel plan res = some out := by
  induction fuel with
  | zero => intro plan res h; omega
  | succ f ih =>
    intro plan res h
    by_cases hc : planIsComplete plan.steps = true
    · exact ⟨(res, plan), by simp [execLoop, hc]⟩
    · have hc' : planIsComplete plan.steps = false := by
        cases hb : planIsComplete plan.steps
        · rfl
        · exact absurd hb hc
      cases hready : readyIndices plan.steps with
      | nil =>
        by_cases hfail : planHasFailures plan.steps = true
        · cases hretry : plan.steps.filter canRetry with
          | nil => exact ⟨(res, plan), by simp [execLoop, hc', hready, hfail, hretry]⟩
          | cons r rs =>
            have hmeas : planMeasure (plan.steps.map retryResetStep) < f := by
              have := retryReset_measure_lt plan.steps (by rw [hretry]; simp)
              omega
            obtain ⟨out, hout⟩ := ih { plan with steps := plan.steps.map retryResetStep } res hmeas
            refine ⟨out, ?_⟩
            simp only [execLoop, hc', hready, hfail, hretry, Bool.false_eq_true, if_false,
              List.isEmpty_nil, if_true]
            simpa using hout
        · have hfail' : planHasFailures plan.steps = false := by
            cases hb : planHasFailures plan.steps
            · rfl
            · exact absurd hb hfail
          exact ⟨(res, plan), by simp [execLoop, hc', hready, hfail']⟩
      | cons i rest =>
        obtain ⟨s, hs, hp⟩ := readyIndices_pending plan.steps i (by rw [hready]; exact List.mem_cons_self _ _)
        have hmeas : planMeasure (execSteps (i :: rest) plan.steps plan.context res).1 <
            planMeasure plan.steps :=
          execSteps_measure_lt _ _ _ _ i s (List.mem_cons_self _ _) hs hp
        have hmeas2 : planMeasure (execSteps (i :: rest) plan.steps plan.context res).1 < f := by
          omega
        obtain ⟨out, hout⟩ := ih
          { plan with steps := (execSteps (i :: rest) plan.steps plan.context res).1,
                      context := (execSteps (i :: rest) plan.steps plan.context res).2.1 }
          (execSteps (i :: rest) plan.steps plan.context res).2.2 hmeas2
        refine ⟨out, ?_⟩
        rw [execLoop]
        simp only [hc', hready, Bool.false_eq_true, if_false, List.isEmpty_cons]
        simpa using hout

theorem execSteps_results_prefix (idxs : List Nat) (steps : List ExecutionStep)
    (ctx : Params) (res : List ToolResult) :
    ∃ extra, (execSteps idxs steps ctx res).2.2 = res ++ extra := by
  induction idxs generalizing steps ctx res with
  | nil => exact ⟨[], by simp [execSteps]⟩
  | cons i rest ih =>
    simp only [execSteps]
    cases hs : steps[i]? with
    | none => exact ih steps ctx res
    | some st =>
      obtain ⟨e, he⟩ := ih (steps.set i (stepExecute st ctx).1) _ (res ++ [(stepExecute st ctx).2])
      exact ⟨(stepExecute st ctx).2 :: e, by rw [he]; simp⟩

theorem execLoop_prefix (fuel : Nat) :
    ∀ (plan : ExecutionPlan) (res out : List ToolResult) (p' : ExecutionPlan),
      execLoop fuel plan res = some (out, p') → ∃ extra, out = res ++ extra := by
  induction fuel with
  | zero => intro plan res out p' h; cases h
  | succ f ih =>
    intro plan res out p' h
    by_cases hc : planIsComplete plan.steps = true
    · rw [execLoop, if_pos hc] at h
      injection h with h2
      injection h2 with h3 h4
      exact ⟨[], by simp [h3.symm]⟩
    · have hc' : planIsComplete plan.steps = false := by
        cases hb : planIsComplete plan.steps
        · rfl
        · exact absurd hb hc
      cases hready : readyIndices plan.steps with
      | nil =>
        by_cases hfail : planHasFailures plan.steps = true
        · cases hretry : plan.steps.filter canRetry with
          | nil =>
            simp only [execLoop, hc', hready, hfail, hretry, Bool.false_eq_true, if_false,
              List.isEmpty_nil, if_true] at h
            injection h with h2
            injection h2 with h3 h4
            exact ⟨[], by simp [h3.symm]⟩
          | cons r rs =>
            simp only [execLoop, hc', hready, hfail, hretry, Bool.false_eq_true, if_false,
              List.isEmpty_nil, if_true, List.isEmpty_cons] at h
            exact ih _ _ _ _ h
        · have hfail' : planHasFailures plan.steps = false := by
            cases hb : planHasFailures plan.steps
            · rfl
            · exact absurd hb hfail
          simp only [execLoop, hc', hready, hfail', Bool.false_eq_true, if_false,
            List.isEmpty_nil, if_true] at h
          injection h with h2
          injection h2 with h3 h4
          exact ⟨[], by simp [h3.symm]⟩
      | cons i rest =>
        simp only [execLoop, hc', hready, Bool.false_eq_true, if_false,
          List.isEmpty_cons] at h
        obtain ⟨e1, he1⟩ := ih _ _ _ _ h
        obtain ⟨e2, he2⟩ :=
          execSteps_results_prefix (i :: rest) plan.steps plan.context res
        rw [he2] at he1
        exact ⟨e2 ++ e1, by rw [he1]; simp⟩

theorem mem_of_getElem? {α : Type} {l : List α} {i : Nat} {a : α}
    (h : l[i]? = some a) : a ∈ l := by
  induction l generalizing i with
  | nil => simp at h
  | cons x xs ih =>
    cases i with
    | zero =>
      simp only [List.getElem?_cons_zero, Option.some.injEq] at h
      exact h ▸ List.mem_cons_self _ _
    | succ j =>
      simp only [List.getElem?_cons_succ] at h
      exact List.mem_cons_of_mem _ (ih h)

theorem not_complete_of_badStep (steps : List ExecutionStep) (i : Nat) (B : ExecutionStep)
    (hs : steps[i]? = some B)
    (hst : B.status = .PENDING ∨ B.status = .FAILED) :
    planIsComplete steps = false := by
  cases hb : planIsComplete steps
  · rfl
  · exfalso
    have hmem := mem_of_getElem? hs
    have := (List.all_eq_true.mp hb) B hmem
    rcases hst with h | h <;> rw [h] at this <;> simp at this

theorem hasFailures_of_failed (steps : List ExecutionStep) (i : Nat) (B : ExecutionStep)
    (hs : steps[i]? = some B) (hst : B.status = .FAILED) :
    planHasFailures steps = true := by
  have hmem := mem_of_getElem? hs
  apply List.any_eq_true.mpr
  exact ⟨B, hmem, by rw [hst]; rfl⟩

theorem readyIndices_of_pending_nodeps (steps : List ExecutionStep) (i : Nat)
    (B : ExecutionStep) (hs : steps[i]? = some B)
    (hp : B.status = .PENDING) (hd : B.dependencies = []) :
    i ∈ readyIndices steps := by
  have hlt : i < steps.length := by
    by_contra hge
    rw [List.getElem?_eq_none (by omega)] at hs
    cases hs
  simp only [readyIndices, List.mem_filter, List.mem_range]
  refine ⟨hlt, ?_⟩
  rw [hs]
  simp [isReady, hp, hd]

theorem readyIndices_nodup (steps : List ExecutionStep) : (readyIndices steps).Nodup :=
  (List.nodup_range _).filter _

theorem getElem?_set_self_of_some {α : Type} {l : List α} {j : Nat} {b : α} (a : α)
    (h : l[j]? = some b) : (l.set j a)[j]? = some a := by
  induction l generalizing j with
  | nil => simp at h
  | cons x xs ih =>
    cases j with
    | zero => simp
    | succ k =>
      simp only [List.getElem?_cons_succ] at h
      simpa using ih h

theorem execSteps_getElem?_not_mem (idxs : List Nat) (steps : List ExecutionStep)
    (ctx : Params) (res : List ToolResult) (i : Nat) (hi : i ∉ idxs) :
    (execSteps idxs steps ctx res).1[i]? = steps[i]? := by
  induction idxs generalizing steps ctx res with
  | nil => simp [execSteps]
  | cons j rest ih =>
    have hji : j ≠ i := fun h => hi (h ▸ List.mem_cons_self _ _)
    have hirest : i ∉ rest := fun h => hi (List.mem_cons_of_mem _ h)
    simp only [execSteps]
    cases hs : steps[j]? with
    | none => exact ih _ _ _ hirest
    | some st =>
      rw [ih _ _ _ hirest]
      exact List.getElem?_set_ne hji

theorem execSteps_badInv (idxs : List Nat) (steps : List ExecutionStep)
    (ctx : Params) (res : List ToolResult) (i mr : Nat)
    (hinv : badStepInv i mr steps) (hnodup : idxs.Nodup)
    (hpend : i ∈ idxs → ∀ s, steps[i]? = some s → s.status = .PENDING) :
    badStepInv i mr (execSteps idxs steps ctx res).1 := by
  induction idxs generalizing steps ctx res with
  | nil => simpa [execSteps] using hinv
  | cons j rest ih =>
    obtain ⟨hjr, hnd⟩ := List.nodup_cons.mp hnodup
    simp only [execSteps]
    cases hs : steps[j]? with
    | none =>
      exact ih _ _ _ hinv hnd (fun hir s hs' => hpend (List.mem_cons_of_mem _ hir) s hs')
    | some st =>
      by_cases hji : j = i
      · subst hji
        obtain ⟨B, hB, hdep, hfails, hmax, hrle, hstate⟩ := hinv
        rw [hB] at hs
        injection hs with hs
        subst hs
        have hp : B.status = .PENDING := hpend (List.mem_cons_self _ _) B hB
        have hexeq : B.execCount = B.retry_count := by
          rcases hstate with ⟨-, he⟩ | ⟨hf, -⟩
          · exact he
          · rw [hp] at hf; cases hf
        obtain ⟨hid, htool, hcap, hpar, hdeps, hret, hmaxr, hcnt⟩ := stepExecute_fields B ctx
        obtain ⟨hfailst, -⟩ := stepExecute_alwaysFails B ctx hfails
        refine ih _ _ _ ?_ hnd ?_
        · refine ⟨(stepExecute B ctx).1, getElem?_set_self_of_some _ hB, ?_, ?_, ?_, ?_, ?_⟩
          · rw [hdeps]; exact hdep
          · rw [htool, hcap]; exact hfails
          · rw [hmaxr]; exact hmax
          · rw [hret]; exact hrle
          · right
            exact ⟨hfailst, by rw [hcnt, hret, hexeq]⟩
        · intro hir
          exact absurd hir hjr
      · obtain ⟨B, hB, hdep, hfails, hmax, hrle, hstate⟩ := hinv
        refine ih _ _ _ ?_ hnd ?_
        · exact ⟨B, by rw [List.getElem?_set_ne hji, hB], hdep, hfails, hmax, hrle, hstate⟩
        · intro hir s hs'
          rw [List.getElem?_set_ne hji] at hs'
          exact hpend (List.mem_cons_of_mem _ hir) s hs'

theorem retryReset_badInv (steps : List ExecutionStep) (i mr : Nat)
    (hinv : badStepInv i mr steps) :
    badStepInv i mr (steps.map retryResetStep) := by
  obtain ⟨B, hB, hdep, hfails, hmax, hrle, hstate⟩ := hinv
  refine ⟨retryResetStep B, ?_, ?_⟩
  · rw [List.getElem?_map, hB]
    rfl
  · unfold retryResetStep
    by_cases hcr : canRetry B = true
    · obtain ⟨hf, hlt⟩ := (canRetry_iff B).mp hcr
      rw [if_pos hcr]
      have hexeq : B.execCount = B.retry_count + 1 := by
        rcases hstate with ⟨hp, -⟩ | ⟨-, he⟩
        · rw [hf] at hp; cases hp
        · exact he
      exact ⟨hdep, hfails, hmax, by simp; omega, Or.inl ⟨rfl, by simpa using hexeq⟩⟩
    · rw [if_neg hcr]
      exact ⟨hdep, hfails, hmax, hrle, hstate⟩

theorem execLoop_badInv (i mr : Nat) (fuel : Nat) :
    ∀ (plan : ExecutionPlan) (res out : List ToolResult) (p' : ExecutionPlan),
      badStepInv i mr plan.steps →
      execLoop fuel plan res = some (out, p') →
      ∃ B', p'.steps[i]? = some B' ∧ B'.status = .FAILED ∧ B'.retry_count = mr ∧
        B'.execCount = mr + 1 ∧ planHasFailures p'.steps = true ∧
        planIsComplete p'.steps = false := by
  induction fuel with
  | zero => intro plan res out p' hinv h; cases h
  | succ f ih =>
    intro plan res out p' hinv h
    obtain ⟨B, hB, hdep, hfails, hmax, hrle, hstate⟩ := hinv
    have hc' : planIsComplete plan.steps = false := by
      refine not_complete_of_badStep plan.steps i B hB ?_
      rcases hstate with ⟨hp, -⟩ | ⟨hf, -⟩
      · exact Or.inl hp
      · exact Or.inr hf
    cases hready : readyIndices plan.steps with
    | nil =>
      have hBfailed : B.status = .FAILED := by
        rcases hstate with ⟨hp, -⟩ | ⟨hf, -⟩
        · exfalso
          have := readyIndices_of_pending_nodeps plan.steps i B hB hp hdep
          rw [hready] at this
          simp at this
        · exact hf
      have hexeq : B.execCount = B.retry_count + 1 := by
        rcases hstate with ⟨hp, -⟩ | ⟨-, he⟩
        · rw [hBfailed] at hp; cases hp
        · exact he
      have hfail : planHasFailures plan.steps = true :=
        hasFailures_of_failed plan.steps i B hB hBfailed
      cases hretry : plan.steps.filter canRetry with
      | nil =>
        simp only [execLoop, hc', hready, hfail, hretry, Bool.false_eq_true, if_false,
          List.isEmpty_nil, if_true] at h
        injection h with h2
        injection h2 with h3 h4
        subst h4
        have hnoretry : canRetry B = false := by
          have hmem := mem_of_getElem? hB
          cases hb : canRetry B
          · rfl
          · exfalso
            have : B ∈ plan.steps.filter canRetry := List.mem_filter.mpr ⟨hmem, hb⟩
            rw [hretry] at this
            simp at this
        have hret_eq : B.retry_count = mr := by
          by_contra hne
          have hlt : B.retry_count < B.max_retries := by omega
          have hcr : canRetry B = true := (canRetry_iff B).mpr ⟨hBfailed, hlt⟩
          rw [hnoretry] at hcr
          cases hcr
        exact ⟨B, hB, hBfailed, hret_eq, by omega, hfail, hc'⟩
      | cons r rs =>
        simp only [execLoop, hc', hready, hfail, hretry, Bool.false_eq_true, if_false,
          List.isEmpty_nil, if_true, List.isEmpty_cons] at h
        refine ih _ _ _ _ ?_ h
        exact retryReset_badInv plan.steps i mr ⟨B, hB, hdep, hfails, hmax, hrle, hstate⟩
    | cons j rest =>
      simp only [execLoop, hc', hready, Bool.false_eq_true, if_false,
        List.isEmpty_cons] at h
      refine ih _ _ _ _ ?_ h
      refine execSteps_badInv _ _ _ _ _ _ ⟨B, hB, hdep, hfails, hmax, hrle, hstate⟩ ?_ ?_
      · rw [← hready]
        exact readyIndices_nodup plan.steps
      · intro hir s hs'
        rw [← hready] at hir
        obtain ⟨s', hs'', hp⟩ := readyIndices_pending plan.steps i hir
        rw [hs'] at hs''
        injection hs'' with hs''
        rw [← hs''] at hp
        exact hp

set_option maxHeartbeats 1000000 in
/-- C2, amended: for every sequentially-executed plan containing a fresh
(pending, zero retries) step with NO DEPENDENCIES whose tool always fails,
`execute_plan` terminates (the loop concludes within its measure-derived
fuel); that step is retried exactly `max_retries` times, so it executes
`1 + max_retries` times in total, and afterwards the plan has failures and
is not complete. -/
theorem C2_retry_bound (plan : ExecutionPlan) (i : Nat) (B : ExecutionStep)
    (hpar : plan.parallel_execution = false)
    (hB : plan.steps[i]? = some B) (hdep : B.dependencies = [])
    (hfails : alwaysFails B.tool B.capability.name)
    (hstatus : B.status = .PENDING) (hretry : B.retry_count = 0) (hexec : B.execCount = 0) :
    execLoop (planMeasure plan.steps + 1) plan [] = some (executePlan plan) ∧
    ((executePlan plan).2.steps[i]?).map (fun s => (s.status, s.retry_count, s.execCount)) =
      some (.FAILED, B.max_retries, B.max_retries + 1) ∧
    planHasFailures (executePlan plan).2.steps = true ∧
    planIsComplete (executePlan plan).2.steps = false := by
  obtain ⟨out, hout⟩ := execLoop_total (planMeasure plan.steps + 1) plan [] (by omega)
  obtain ⟨res, p'⟩ := out
  have hexe : executePlan plan = (res, p') := by
    simp [executePlan, hpar, hout]
  have hinv : badStepInv i B.max_retries plan.steps :=
    ⟨B, hB, hdep, hfails, rfl, by omega, Or.inl ⟨hstatus, by omega⟩⟩
  obtain ⟨B', h1, h2, h3, h4, h5, h6⟩ :=
    execLoop_badInv i B.max_retries (planMeasure plan.steps + 1) plan [] res p' hinv hout
  rw [hexe]
  refine ⟨by rw [hout], ?_, h5, h6⟩
  rw [h1]
  simp [h2, h3, h4]

/-- Witness for `C2_retry_bound`: a single-step plan whose tool always
returns a failed result executes the step four times (1 + the default
`max_retries` of 3). -/
theorem C2_witness :
    execLoop (planMeasure failPlan.steps + 1) failPlan [] = some (executePlan failPlan) ∧
    ((executePlan failPlan).2.steps[0]?).map (fun s => (s.status, s.retry_count, s.execCount)) =
      some (.FAILED, failStep.max_retries, failStep.max_retries + 1) ∧
    planHasFailures (executePlan failPlan).2.steps = true ∧
    planIsComplete (executePlan failPlan).2.steps = false :=
  C2_retry_bound failPlan 0 failStep rfl rfl rfl (fun _ => rfl) rfl rfl rfl

set_option maxHeartbeats 1000000 in
/-- C2, counterexample to the claim as stated (quantified over EVERY plan
containing an always-failing step): a plan whose only step has an
always-failing tool but an unsatisfiable dependency terminates immediately
with no executions and no retries, and `has_failures()` is false — contrary
to the claim's conclusion. -/
theorem C2_counterexample :
    alwaysFails blockedStep.tool blockedStep.capability.name ∧
    blockedPlan.parallel_execution = false ∧
    executePlan blockedPlan = ([], blockedPlan) ∧
    planHasFailures (executePlan blockedPlan).2.steps = false ∧
    planIsComplete (executePlan blockedPlan).2.steps = false ∧
    ((executePlan blockedPlan).2.steps.map (fun s => (s.execCount, s.retry_count))) = [(0, 0)] :=
  ⟨fun _ => rfl, rfl, rfl, rfl, rfl, rfl⟩

theorem dollarBrace_data (X : String) :
    ("$\x7b" ++ X ++ "\x7d").data = ('$' :: '\x7b' :: X.data) ++ ['\x7d'] := by
  have h1 : "$\x7b".data = ['$', '\x7b'] := rfl
  have h2 : "\x7d".data = ['\x7d'] := rfl
  simp [String.data_append, h1, h2]

theorem startsWith_dollarBrace (X : String) :
    pyStartsWith ("$\x7b" ++ X ++ "\x7d").data "$\x7b".data = true := by
  rw [dollarBrace_data]
  show List.isPrefixOf ['$', '\x7b'] (('$' :: '\x7b' :: X.data) ++ ['\x7d']) = true
  simp [List.isPrefixOf]

theorem endsWith_brace (X : String) :
    pyEndsWith ("$\x7b" ++ X ++ "\x7d").data "\x7d".data = true := by
  rw [dollarBrace_data]
  show List.isPrefixOf ['\x7d'].reverse ((('$' :: '\x7b' :: X.data) ++ ['\x7d']).reverse) = true
  rw [List.reverse_append]
  simp [List.isPrefixOf]

theorem slice_dollarBrace (X : String) :
    sliceTwoToLast ("$\x7b" ++ X ++ "\x7d").data = X.data := by
  rw [dollarBrace_data]
  unfold sliceTwoToLast
  rw [List.dropLast_concat]
  simp

theorem string_mk_data (s : String) : String.mk s.data = s := rfl

theorem resolveParameters_cons (kv : String × Value) (rest : Params) (ctx : Params) :
    resolveParameters (kv :: rest) ctx =
      (resolveParameters [kv] ctx) ++ resolveParameters rest ctx := by
  simp [resolveParameters]

theorem resolveEntry_exact (ctx : Params) (k X : String) :
    resolveParameters [(k, Value.vstr ("$\x7b" ++ X ++ "\x7d"))] ctx =
      [(k, pgetD ctx X (Value.vstr ("$\x7b" ++ X ++ "\x7d")))] := by
  unfold resolveParameters
  simp only [List.map_cons, List.map_nil]
  rw [show (pyStartsWith ("$\x7b" ++ X ++ "\x7d").data "$\x7b".data &&
        pyEndsWith ("$\x7b" ++ X ++ "\x7d").data "\x7d".data) = true by
      rw [startsWith_dollarBrace, endsWith_brace]; rfl]
  rw [slice_dollarBrace, string_mk_data]
  simp

theorem resolveEntry_literal (ctx : Params) (k : String) (s : String)
    (hns : pyStartsWith s.data "$\x7b".data = false ∨ pyEndsWith s.data "\x7d".data = false) :
    resolveParameters [(k, Value.vstr s)] ctx = [(k, Value.vstr s)] := by
  unfold resolveParameters
  simp only [List.map_cons, List.map_nil]
  rw [show (pyStartsWith s.data "$\x7b".data && pyEndsWith s.data "\x7d".data) = false by
      rcases hns with h | h <;> simp [h]]
  simp

theorem resolveEntry_other (ctx : Params) (k : String) (b : Bool) :
    resolveParameters [(k, Value.vobj b)] ctx = [(k, Value.vobj b)] := by
  simp [resolveParameters]

theorem resolveParameters_key (kv : String × Value) (ctx : Params) :
    ∃ v, resolveParameters [kv] ctx = [(kv.1, v)] := by
  obtain ⟨k, v⟩ := kv
  rcases v with s | b
  · unfold resolveParameters
    simp only [List.map_cons, List.map_nil]
    split
    · exact ⟨_, rfl⟩
    · exact ⟨_, rfl⟩
  · exact ⟨Value.vobj b, by simp [resolveParameters]⟩

theorem pget_resolve_exact (ps ctx : Params) (key X : String)
    (h : pget ps key = some (.vstr ("$\x7b" ++ X ++ "\x7d"))) :
    pget (resolveParameters ps ctx) key =
      some (pgetD ctx X (.vstr ("$\x7b" ++ X ++ "\x7d"))) := by
  induction ps with
  | nil => simp [pget] at h
  | cons kv rest ih =>
    obtain ⟨k, v⟩ := kv
    rw [resolveParameters_cons]
    by_cases hk : (k == key) = true
    · simp only [pget, List.find?, hk, Option.map_some'] at h
      injection h with h
      subst h
      rw [resolveEntry_exact]
      simp [pget, List.find?, hk]
    · have hk' : (k == key) = false := by
        cases hb : (k == key)
        · rfl
        · exact absurd hb hk
      simp only [pget, List.find?, hk'] at h
      obtain ⟨v', hv'⟩ := resolveParameters_key (k, v) ctx
      rw [hv']
      simp only [List.cons_append, List.nil_append, pget, List.find?, hk']
      exact ih h

theorem pget_resolve_literal (ps ctx : Params) (key : String) (s : String)
    (h : pget ps key = some (.vstr s))
    (hns : pyStartsWith s.data "$\x7b".data = false ∨ pyEndsWith s.data "\x7d".data = false) :
    pget (resolveParameters ps ctx) key = some (.vstr s) := by
  induction ps with
  | nil => simp [pget] at h
  | cons kv rest ih =>
    obtain ⟨k, v⟩ := kv
    rw [resolveParameters_cons]
    by_cases hk : (k == key) = true
    · simp only [pget, List.find?, hk, Option.map_some'] at h
      injection h with h
      subst h
      rw [resolveEntry_literal ctx k s hns]
      simp [pget, List.find?, hk]
    · have hk' : (k == key) = false := by
        cases hb : (k == key)
        · rfl
        · exact absurd hb hk
      simp only [pget, List.find?, hk'] at h
      obtain ⟨v', hv'⟩ := resolveParameters_key (k, v) ctx
      rw [hv']
      simp only [List.cons_append, List.nil_append, pget, List.find?, hk']
      exact ih h

theorem stepExecute_success_completed (s : ExecutionStep) (ctx : Params)
    (h : (stepExecute s ctx).2.success = true) :
    (stepExecute s ctx).1.status = .COMPLETED := by
  rcases stepExecute_status s ctx with ⟨h1, -⟩ | ⟨-, h2⟩
  · exact h1
  · rw [h] at h2; cases h2

theorem C3_threading (plan : ExecutionPlan) (A B : ExecutionStep) (x : String)
    (hpar : plan.parallel_execution = false) (hsteps : plan.steps = [A, B])
    (hctx : plan.context = [])
    (hAst : A.status = .PENDING) (hAdep : A.dependencies = [])
    (hBst : B.status = .PENDING) (hBdep : B.dependencies = [A.id])
    (hAsucc : (stepExecute A []).2.success = true)
    (hAdata : (stepExecute A []).2.data = some (.vstr x)) (hx : ¬ x = "") :
    ∃ rest, (executePlan plan).1 =
      (stepExecute A []).2 ::
        (stepExecute B [("step_" ++ A.id ++ "_result", .vstr x)]).2 :: rest := by
  have hA'id : (stepExecute A []).1.id = A.id := (stepExecute_fields A []).1
  have hA'st : (stepExecute A []).1.status = .COMPLETED :=
    stepExecute_success_completed A [] hAsucc
  have hxbeq : (x == "") = false := by
    cases hb : (x == "")
    · rfl
    · exact absurd (by simpa using hb) hx
  have hnc1 : planIsComplete plan.steps = false := by
    rw [hsteps]
    simp [planIsComplete, hAst]
  have hready1 : readyIndices plan.steps = [0] := by
    rw [hsteps]
    simp [readyIndices, isReady, completedIds, hAst, hBst, hAdep, hBdep,
      List.range_succ, List.filter_cons]
  have hexec1 : execSteps [0] [A, B] [] [] =
      ([(stepExecute A []).1, B], [("step_" ++ A.id ++ "_result", .vstr x)],
        [(stepExecute A []).2]) := by
    simp [execSteps, hAsucc, hAdata, otruthy, vtruthy, hxbeq, dinsert, hasKey]
  have hstep1 : execLoop (planMeasure plan.steps + 1) plan [] =
      execLoop (planMeasure plan.steps)
        { plan with steps := [(stepExecute A []).1, B],
                    context := [("step_" ++ A.id ++ "_result", .vstr x)] }
        [(stepExecute A []).2] := by
    simp only [execLoop, hnc1, hready1, Bool.false_eq_true, if_false, List.isEmpty_cons]
    rw [hsteps, hctx, hexec1]
  have hnc2 : planIsComplete [(stepExecute A []).1, B] = false := by
    simp [planIsComplete, hBst]
  have hready2 : readyIndices [(stepExecute A []).1, B] = [1] := by
    simp [readyIndices, isReady, completedIds, hA'st, hA'id, hBst, hBdep,
      List.range_succ, List.filter_cons]
  have hres2 : (execSteps [1] [(stepExecute A []).1, B]
      [("step_" ++ A.id ++ "_result", .vstr x)] [(stepExecute A []).2]).2.2 =
      [(stepExecute A []).2,
       (stepExecute B [("step_" ++ A.id ++ "_result", .vstr x)]).2] := by
    simp [execSteps]
  have hw1 : stepWeight (stepExecute A []).1 < stepWeight A := stepWeight_exec_lt A [] hAst
  have hmeas1 : planMeasure [(stepExecute A []).1, B] < planMeasure plan.steps := by
    rw [hsteps]
    simp only [planMeasure_cons]
    omega
  have hM2 : 1 ≤ planMeasure plan.steps := by omega
  obtain ⟨f, hf⟩ : ∃ f, planMeasure plan.steps = f + 1 :=
    ⟨planMeasure plan.steps - 1, by omega⟩
  have hstep2 : execLoop (planMeasure plan.steps)
      { plan with steps := [(stepExecute A []).1, B],
                  context := [("step_" ++ A.id ++ "_result", .vstr x)] }
      [(stepExecute A []).2] =
      execLoop f
        { plan with
            steps := (execSteps [1] [(stepExecute A []).1, B]
              [("step_" ++ A.id ++ "_result", .vstr x)] [(stepExecute A []).2]).1,
            context := (execSteps [1] [(stepExecute A []).1, B]
              [("step_" ++ A.id ++ "_result", .vstr x)] [(stepExecute A []).2]).2.1 }
        ((execSteps [1] [(stepExecute A []).1, B]
          [("step_" ++ A.id ++ "_result", .vstr x)] [(stepExecute A []).2]).2.2) := by
    rw [hf]
    simp only [execLoop, hnc2, hready2, Bool.false_eq_true, if_false, List.isEmpty_cons]
  have hmeas2 : planMeasure (execSteps [1] [(stepExecute A []).1, B]
      [("step_" ++ A.id ++ "_result", .vstr x)] [(stepExecute A []).2]).1 <
      planMeasure [(stepExecute A []).1, B] := by
    refine execSteps_measure_lt _ _ _ _ 1 B (List.mem_cons_self _ _) (by simp) hBst
  obtain ⟨out, hout⟩ := execLoop_total f
    { plan with
        steps := (execSteps [1] [(stepExecute A []).1, B]
          [("step_" ++ A.id ++ "_result", .vstr x)] [(stepExecute A []).2]).1,
        context := (execSteps [1] [(stepExecute A []).1, B]
          [("step_" ++ A.id ++ "_result", .vstr x)] [(stepExecute A []).2]).2.1 }
    ((execSteps [1] [(stepExecute A []).1, B]
      [("step_" ++ A.id ++ "_result", .vstr x)] [(stepExecute A []).2]).2.2)
    (by dsimp only; omega)
  obtain ⟨res, p'⟩ := out
  obtain ⟨rest, hrest⟩ := execLoop_prefix f _ _ _ _ hout
  rw [hres2] at hrest
  have hfinal : execLoop (planMeasure plan.steps + 1) plan [] = some (res, p') := by
    rw [hstep1, hstep2, hout]
  have hexe : executePlan plan = (res, p') := by
    simp [executePlan, hpar, hfinal]
  refine ⟨rest, ?_⟩
  rw [hexe, hrest]
  simp

/-- C3: parameter resolution and context threading in sequential execution.
(1) A parameter whose string value is exactly of the form `${X}` resolves to
`context[X]` when present, else stays the literal `${X}` (`pgetD` default);
(2) a string value not of that shape (longer strings merely containing
`${...}` included) is never interpolated; (3) in a two-step plan where step
A succeeds with non-empty string data `x` and step B's parameter is the
literal `${step_<A.id>_result}`, step B executes with that parameter
resolved to `x` (the context having been extended under key
`step_<A.id>_result`), and the first two returned results are A's and that
execution of B; (4) a failed or dataless (falsy) result adds nothing to the
context. -/
theorem C3_parameter_resolution :
    (∀ (ps ctx : Params) (key X : String),
      pget ps key = some (.vstr ("$\x7b" ++ X ++ "\x7d")) →
      pget (resolveParameters ps ctx) key =
        some (pgetD ctx X (.vstr ("$\x7b" ++ X ++ "\x7d")))) ∧
    (∀ (ps ctx : Params) (key : String) (s : String),
      pget ps key = some (.vstr s) →
      pyStartsWith s.data "$\x7b".data = false ∨ pyEndsWith s.data "\x7d".data = false →
      pget (resolveParameters ps ctx) key = some (.vstr s)) ∧
    (∀ (plan : ExecutionPlan) (A B : ExecutionStep) (k x : String),
      plan.parallel_execution = false → plan.steps = [A, B] → plan.context = [] →
      A.status = .PENDING → A.dependencies = [] →
      B.status = .PENDING → B.dependencies = [A.id] →
      B.parameters = [(k, .vstr ("$\x7b" ++ ("step_" ++ A.id ++ "_result") ++ "\x7d"))] →
      (stepExecute A []).2.success = true →
      (stepExecute A []).2.data = some (.vstr x) → ¬ x = "" →
      resolveParameters B.parameters [("step_" ++ A.id ++ "_result", .vstr x)] =
        [(k, .vstr x)] ∧
      ∃ rest, (executePlan plan).1 =
        (stepExecute A []).2 ::
          (stepExecute B [("step_" ++ A.id ++ "_result", .vstr x)]).2 :: rest) ∧
    (∀ (steps : List ExecutionStep) (i : Nat) (st : ExecutionStep) (ctx : Params)
      (res : List ToolResult), steps[i]? = some st →
      (stepExecute st ctx).2.success = false ∨ otruthy (stepExecute st ctx).2.data = false →
      (execSteps [i] steps ctx res).2.1 = ctx) := by
  refine ⟨pget_resolve_exact, pget_resolve_literal, ?_, ?_⟩
  · intro plan A B k x hpar hsteps hctx hAst hAdep hBst hBdep hBparams hAsucc hAdata hx
    constructor
    · rw [hBparams, resolveEntry_exact]
      simp [pgetD, pget, List.find?]
    · exact C3_threading plan A B x hpar hsteps hctx hAst hAdep hBst hBdep hAsucc hAdata hx
  · intro steps i st ctx res hs hcond
    rcases hcond with h | h <;> simp [execSteps, hs, h]

/-- Witness for `C3_parameter_resolution` at a concrete two-step plan whose
first step succeeds with data `"X"`. -/
theorem C3_witness :
    (pget (resolveParameters [("c", .vstr "$\x7bv\x7d")] [("v", .vstr "X")]) "c" =
      some (pgetD [("v", .vstr "X")] "v" (.vstr "$\x7bv\x7d"))) ∧
    (pget (resolveParameters [("c", .vstr "a $\x7bv\x7d b")] [("v", .vstr "X")]) "c" =
      some (.vstr "a $\x7bv\x7d b")) ∧
    (resolveParameters stepB.parameters [("step_p_001_result", .vstr "X")] =
      [("content", .vstr "X")] ∧
     ∃ rest, (executePlan threadPlan).1 =
       (stepExecute stepA []).2 ::
         (stepExecute stepB [("step_p_001_result", .vstr "X")]).2 :: rest) :=
  ⟨C3_parameter_resolution.1 [("c", .vstr "$\x7bv\x7d")] [("v", .vstr "X")] "c" "v" rfl,
   C3_parameter_resolution.2.1 [("c", .vstr "a $\x7bv\x7d b")] [("v", .vstr "X")] "c"
     "a $\x7bv\x7d b" rfl (Or.inl rfl),
   C3_parameter_resolution.2.2.1 threadPlan stepA stepB "content" "X"
     rfl rfl rfl rfl rfl rfl rfl rfl rfl rfl (by decide)⟩

/-- C1: `route_request` never propagates an exception.  Whatever the
registered tools do (including a `get_capabilities` or `execute` that
raises, modeled by the `Except` error of `routeRequestTry`), `routeRequest`
returns a result list: when the `try` block raises `e` the list is a single
failed `ToolResult` whose error is `"Routing error: " ++ e`; when no
candidate (tool, capability) pairs are found it is a single failed
`ToolResult` reporting `"No tools available to handle: " ++ input` rather
than an exception; otherwise it is exactly the executed plan's results. -/
theorem C1_route_request_never_raises (tools : List Tool) (stats : RoutingStats)
    (input : String) (context : Option Ctx) (planId : String) :
    (∀ e : String, routeRequestTry tools input context planId = .error e →
      (routeRequest tools stats input context planId).1 =
        [{ success := false, data := none,
           error := some ("Routing error: " ++ e) }]) ∧
    (routeRequestTry tools input context planId = .ok .noTools →
      (routeRequest tools stats input context planId).1 =
        [{ success := false, data := none,
           error := some ("No tools available to handle: " ++ input) }]) ∧
    (∀ (rs : List ToolResult) (key : String),
      routeRequestTry tools input context planId = .ok (.executed rs key) →
      (routeRequest tools stats input context planId).1 = rs) := by
  refine ⟨?_, ?_, ?_⟩
  · intro e h; simp [routeRequest, h]
  · intro h; simp [routeRequest, h]
  · intro rs key h; simp [routeRequest, h]

set_option maxHeartbeats 4000000 in
/-- Witness for `C1_route_request_never_raises`: a registry whose only
tool raises in `get_capabilities` yields the single routing-error result,
and the empty registry yields the single no-tools result. -/
theorem C1_witness :
    (routeRequest [errTool] {} "" none "p").1 =
      [{ success := false, data := none,
         error := some ("Routing error: " ++ "boom") }] ∧
    (routeRequest [] {} "" none "p").1 =
      [{ success := false, data := none,
         error := some ("No tools available to handle: " ++ "") }] :=
  ⟨(C1_route_request_never_raises [errTool] {} "" none "p").1 "boom" rfl,
   (C1_route_request_never_raises [] {} "" none "p").2.1 rfl⟩

/-- C8 (amended): `route_request` always increments `total_requests` by
one, but the no-candidates early return increments neither
`successful_routes` nor `failed_routes`, so the sum invariant
`successful_routes + failed_routes = total_requests` only advances on the
other two branches: on any exception or executed plan exactly one of the
two counters grows by one. -/
theorem C8_stats_invariant (tools : List Tool) (stats : RoutingStats)
    (input : String) (context : Option Ctx) (planId : String) :
    (routeRequest tools stats input context planId).2.total_requests =
      stats.total_requests + 1 ∧
    (routeRequestTry tools input context planId = .ok .noTools →
      (routeRequest tools stats input context planId).2.successful_routes =
        stats.successful_routes ∧
      (routeRequest tools stats input context planId).2.failed_routes =
        stats.failed_routes) ∧
    (routeRequestTry tools input context planId ≠ .ok .noTools →
      (routeRequest tools stats input context planId).2.successful_routes +
        (routeRequest tools stats input context planId).2.failed_routes =
      stats.successful_routes + stats.failed_routes + 1) := by
  refine ⟨?_, ?_, ?_⟩
  · cases h : routeRequestTry tools input context planId with
    | error e => simp [routeRequest, h]
    | ok o => cases o with
      | noTools => simp [routeRequest, h]
      | executed rs key =>
        by_cases hs : rs.any (fun r => r.success) <;> simp [routeRequest, h, hs]
  · intro h; simp [routeRequest, h]
  · intro h
    cases hc : routeRequestTry tools input context planId with
    | error e => simp [routeRequest, hc]; omega
    | ok o => cases o with
      | noTools => exact absurd hc h
      | executed rs key =>
        by_cases hs : rs.any (fun r => r.success) <;>
          simp [routeRequest, hc, hs] <;> omega
  
set_option maxHeartbeats 4000000 in
/-- Witness for `C8_stats_invariant`: the raising registry bumps the total
and exactly one of the success/failure counters. -/
theorem C8_witness :
    (routeRequest [errTool] {} "" none "p").2.total_requests = 0 + 1 ∧
    (routeRequest [errTool] {} "" none "p").2.successful_routes +
      (routeRequest [errTool] {} "" none "p").2.failed_routes = 0 + 0 + 1 := by
  have hE : routeRequestTry [errTool] "" none "p" = .error "boom" := rfl
  refine ⟨(C8_stats_invariant [errTool] {} "" none "p").1,
    (C8_stats_invariant [errTool] {} "" none "p").2.2 ?_⟩
  rw [hE]
  intro h
  exact Except.noConfusion h

set_option maxHeartbeats 4000000 in
/-- Counterexample to C8 as stated: on the empty registry the
no-candidates early return leaves both `successful_routes` and
`failed_routes` untouched, so after one call from a fresh router the sum
invariant `successful_routes + failed_routes = total_requests` fails. -/
theorem C8_counterexample :
    ¬ ((routeRequest [] {} "" none "p").2.successful_routes +
        (routeRequest [] {} "" none "p").2.failed_routes =
       (routeRequest [] {} "" none "p").2.total_requests) := by
  have h : (routeRequest [] {} "" none "p").2 = { total_requests := 1 } := rfl
  rw [h]
  decide

end Olla
